import Mathlib

/-!
# Unit cell container (`lattice/unitcell.hpp`)

A shallow embedding of `lattice::unitcell` and a verification of its
insertion-time contract, of the query `max_neighbors` and of the factory
`simple`.

Modelling conventions.

* `std::size_t` values are natural numbers; the only arithmetic the class does on
  them is `bonds_.size() + multis_.size()`, which cannot wrap for vectors that
  fit in memory.
* `int` type tags are integers; the class only stores and compares them.
* `std::vector` is `List` (with `push_back` appending at the end) and
  `std::set<int>` is `Finset Int`.
* A coordinate component is a `double`: an exact rational, NaN or an infinity,
  with the comparisons of C++ (every comparison with NaN is false).
* A member function that may throw is a function from the cell before the call
  to the pair (outcome, cell after the call); the outcome is the returned value
  or the exception thrown. The cell after the call is whatever the statements
  executed before the `return` or the `throw` have made of it.
* `max_neighbors` throws nothing; its run either returns a value or reaches an
  element access outside a vector (`Outcome.out_of_bounds`), which C++ leaves
  undefined.
-/

namespace lattice

/-- The values of the C++ type `double`, as far as the class uses them: a number,
NaN, or an infinity. A number is taken as an exact rational (the class does no
arithmetic on coordinates, it only stores and compares them; negative zero is
the number 0). -/
inductive double where
  | val (q : ℚ)
  | nan
  | inf
  | neg_inf
  deriving DecidableEq, Repr

namespace double

/-- The comparison `x < y` of two `double`s: false as soon as one side is NaN. -/
def blt : double → double → Bool
  | val a, val b => decide (a < b)
  | val _, inf => true
  | neg_inf, val _ => true
  | neg_inf, inf => true
  | _, _ => false

/-- The comparison `x <= y` of two `double`s: false as soon as one side is NaN. -/
def ble : double → double → Bool
  | val a, val b => decide (a ≤ b)
  | val _, inf => true
  | neg_inf, val _ => true
  | neg_inf, inf => true
  | inf, inf => true
  | neg_inf, neg_inf => true
  | _, _ => false

instance : LT double := ⟨fun x y => blt x y = true⟩

instance : LE double := ⟨fun x y => ble x y = true⟩

instance (x y : double) : Decidable (x < y) := inferInstanceAs (Decidable (blt x y = true))

instance (x y : double) : Decidable (x ≤ y) := inferInstanceAs (Decidable (ble x y = true))

instance : Zero double := ⟨val 0⟩

instance : One double := ⟨val 1⟩

end double

/-- Modelled from the spec: `coordinate_t` is declared in `coordinate.hpp`, which
is not part of the sources at hand; it is a vector of reals, held as `double`s
(the class compares a component with the literal `1.0`). -/
abbrev coordinate_t := List double

/-- Modelled from the spec: `offset_t` is declared in `offset.hpp`, which is not
part of the sources at hand; it is a vector of integers. -/
abbrev offset_t := List Int

/-- The alias `VS = std::vector<std::size_t>`. -/
abbrev VS := List Nat

/-- The exceptions the class throws: all of them are `std::invalid_argument`,
carrying a message. -/
inductive Exception where
  | invalid_argument (what : String)
  deriving DecidableEq, Repr

/-- Whether an outcome is a thrown `std::invalid_argument`. -/
def isInvalidArgument {α : Type} : Except Exception α → Bool
  | .error (.invalid_argument _) => true
  | .ok _ => false

/-- The value an outcome returns, if it returns. -/
def returned {α : Type} : Except Exception α → Option α
  | .error _ => none
  | .ok a => some a

namespace unitcell

/-- The record `site_t`. -/
structure site_t where
  coordinate : coordinate_t
  type : Int
  deriving DecidableEq, Repr

/-- The record `bond_t`. -/
structure bond_t where
  source : Nat
  target : Nat
  target_offset : offset_t
  type : Int
  deriving DecidableEq, Repr

/-- The record `multi_t`. -/
structure multi_t where
  source : Nat
  target_v : VS
  target_offset_v : List offset_t
  type : Int
  deriving DecidableEq, Repr

/-- The member `multi_t::num_act`. -/
def multi_t.num_act (m : multi_t) : Nat := m.target_v.length + 1

end unitcell

open unitcell in
/-- The data members of `class unitcell`. -/
structure unitcell where
  dim_ : Nat
  sites_ : List site_t
  bonds_ : List bond_t
  multis_ : List multi_t
  b_types_ : Finset Int
  m_types_ : Finset Int
  deriving DecidableEq

namespace unitcell

/-- The constructor `unitcell(std::size_t dim)`: every container starts empty.
The default constructor `unitcell()` differs only in leaving `dim_` without a
definite value, so it is `ctor d` for some `d`. -/
def ctor (dim : Nat) : unitcell :=
  { dim_ := dim, sites_ := [], bonds_ := [], multis_ := [], b_types_ := ∅, m_types_ := ∅ }

/-- The member `dimension`. -/
def dimension (c : unitcell) : Nat := c.dim_

/-- The member `num_sites`. -/
def num_sites (c : unitcell) : Nat := c.sites_.length

/-- The member `num_bonds`. -/
def num_bonds (c : unitcell) : Nat := c.bonds_.length

/-- The member `num_multis`. -/
def num_multis (c : unitcell) : Nat := c.multis_.length

/-- The range loop of `add_site`: for `i = 0, ..., dimension()-1` in order, throw
at the first `pos[i]` with `pos[i] < 0 || pos[i] >= 1.0`. The loop runs only
after `pos.size() == dimension()` has been checked, so every `pos[i]` it reads
exists. -/
def add_site_loop (c : unitcell) (pos : coordinate_t) : Option Exception :=
  (List.range c.dimension).findSome? fun i =>
    if pos.getD i 0 < 0 ∨ pos.getD i 0 ≥ 1 then
      some (.invalid_argument "site coordinate out of range")
    else none

/-- The member `add_site`. -/
def add_site (c : unitcell) (pos : coordinate_t) (tp : Int) : Except Exception Nat × unitcell :=
  if pos.length ≠ c.dimension then
    (.error (.invalid_argument "site coordinate dimension mismatch"), c)
  else
    match add_site_loop c pos with
    | some e => (.error e, c)
    | none =>
      let s := c.sites_.length
      let c1 := { c with sites_ := c.sites_ ++ [site_t.mk pos tp] }
      (.ok s, c1)

/-- The member `add_bond`. -/
def add_bond (c : unitcell) (s t : Nat) (os : offset_t) (tp : Int) :
    Except Exception Nat × unitcell :=
  if tp ∈ c.m_types_ ∧ c.m_types_.card ≠ 0 then
    (.error (.invalid_argument
      "There already exists the same type in multi type (tried to add new bond)"), c)
  else if s ≥ c.num_sites ∨ t ≥ c.num_sites then
    (.error (.invalid_argument "site index out of range"), c)
  else if os.length ≠ c.dimension then
    (.error (.invalid_argument "unitcell offset dimension mismatch"), c)
  else
    let b := c.bonds_.length + c.multis_.length
    let c1 := { c with bonds_ := c.bonds_ ++ [bond_t.mk s t os tp] }
    let c2 := { c1 with b_types_ := insert tp c1.b_types_ }
    (.ok b, c2)

/-- The loop of `add_multi`: for `i = 0, ..., t_v.size()-1` in order, with
`t = t_v[i]` and `os = os_v[i]`, throw at the first failed check. The loop runs
only after `t_v.size() == os_v.size()` has been checked, so every `os_v[i]` it
reads exists. -/
def add_multi_loop (c : unitcell) (s : Nat) (t_v : VS) (os_v : List offset_t) :
    Option Exception :=
  (List.range t_v.length).findSome? fun i =>
    let t := t_v.getD i 0
    let os := os_v.getD i []
    if s ≥ c.num_sites ∨ t ≥ c.num_sites then
      some (.invalid_argument "site index out of range")
    else if os.length ≠ c.dimension then
      some (.invalid_argument "unitcell offset dimension mismatch")
    else none

/-- The member `add_multi`. -/
def add_multi (c : unitcell) (s : Nat) (t_v : VS) (os_v : List offset_t) (tp : Int) :
    Except Exception Nat × unitcell :=
  if t_v.length ≠ os_v.length then
    (.error (.invalid_argument "size of t_v and os_v must be same"), c)
  else if t_v.length = 1 then
    (.error (.invalid_argument "size of t_v must be larger than 1 for add_multi"), c)
  else if tp ∈ c.b_types_ ∧ c.b_types_.card ≠ 0 then
    (.error (.invalid_argument
      "There already exists the same type in bond type (tried to add new multi)"), c)
  else
    match add_multi_loop c s t_v os_v with
    | some e => (.error e, c)
    | none =>
      let b := c.bonds_.length + c.multis_.length
      let c1 := { c with multis_ := c.multis_ ++ [multi_t.mk s t_v os_v tp] }
      let c2 := { c1 with m_types_ := insert tp c1.m_types_ }
      (.ok b, c2)

end unitcell

/-- One call of an inserting member function, with its arguments. -/
inductive Call where
  | add_site (pos : coordinate_t) (tp : Int)
  | add_bond (s t : Nat) (os : offset_t) (tp : Int)
  | add_multi (s : Nat) (t_v : VS) (os_v : List offset_t) (tp : Int)
  deriving DecidableEq

/-- The outcome of a call on a cell and the cell it leaves. -/
def Call.apply (c : unitcell) : Call → Except Exception Nat × unitcell
  | .add_site pos tp => c.add_site pos tp
  | .add_bond s t os tp => c.add_bond s t os tp
  | .add_multi s t_v os_v tp => c.add_multi s t_v os_v tp

/-- Whether a call is an `add_bond` or an `add_multi`. -/
def Call.isLink : Call → Bool
  | .add_site _ _ => false
  | .add_bond _ _ _ _ => true
  | .add_multi _ _ _ _ => true

/-- The cell left by a sequence of calls made one after the other, a call that
throws being caught by the caller, who goes on with the next call. -/
def exec (c : unitcell) : List Call → unitcell
  | [] => c
  | k :: ks => exec (k.apply c).2 ks

/-- The outcomes of a sequence of calls, in call order. -/
def outcomes (c : unitcell) : List Call → List (Call × Except Exception Nat)
  | [] => []
  | k :: ks => (k, (k.apply c).1) :: outcomes (k.apply c).2 ks

/-- The values returned by the successful `add_bond` and `add_multi` calls of a
sequence of calls, in call order. -/
def link_indices (c : unitcell) (calls : List Call) : List Nat :=
  (outcomes c calls).filterMap fun kr => if kr.1.isLink then returned kr.2 else none

/-- The type tags carried by the stored bonds. -/
def bond_tags (c : unitcell) : Finset Int := (c.bonds_.map fun b => b.type).toFinset

/-- The type tags carried by the stored multi-bonds. -/
def multi_tags (c : unitcell) : Finset Int := (c.multis_.map fun m => m.type).toFinset

/-- The tracked type-tag sets are the tags of the stored records, and the two
kinds share no tag. -/
def TagInv (c : unitcell) : Prop :=
  c.b_types_ = bond_tags c ∧ c.m_types_ = multi_tags c ∧ Disjoint (bond_tags c) (multi_tags c)

/-- How a run of a member that throws nothing ends: it returns a value, or it
reaches an element access outside a vector, which has undefined behaviour: it is
no exception, and no value is defined. -/
inductive Outcome (α : Type) where
  | returns (a : α)
  | out_of_bounds
  deriving DecidableEq, Repr

/-- The statement `v[i] += 1` on a `std::vector<std::size_t>`. -/
def incr_at (v : List Nat) (i : Nat) : Outcome (List Nat) :=
  if i < v.length then .returns (v.set i (v.getD i 0 + 1)) else .out_of_bounds

/-- The loop of `max_neighbors` over the stored bonds, in order, on the counter
array `num_neighbors`: one increment at the bond's source, then one at its
target. -/
def max_neighbors_loop : List unitcell.bond_t → List Nat → Outcome (List Nat)
  | [], v => .returns v
  | b :: bs, v =>
    match incr_at v b.source with
    | .out_of_bounds => .out_of_bounds
    | .returns v1 =>
      match incr_at v1 b.target with
      | .out_of_bounds => .out_of_bounds
      | .returns v2 => max_neighbors_loop bs v2

/-- The expression `*std::max_element(v.begin(), v.end())`: on an empty vector
`std::max_element` returns `v.end()`, and dereferencing it reads outside the
vector. -/
def max_element_deref : List Nat → Outcome Nat
  | [] => .out_of_bounds
  | x :: xs => .returns (xs.foldl max x)

/-- The member `max_neighbors`. -/
def unitcell.max_neighbors (c : unitcell) : Outcome Nat :=
  match max_neighbors_loop c.bonds_ (List.replicate c.num_sites 0) with
  | .out_of_bounds => .out_of_bounds
  | .returns num_neighbors => max_element_deref num_neighbors

/-- Modelled from the spec: `coordinate_t::Zero(dim)` comes with the vector type
of `coordinate.hpp`, which is not part of the sources at hand; it is the
all-zero coordinate of length `dim`. -/
def coordinate_t.Zero (dim : Nat) : coordinate_t := List.replicate dim 0

/-- Modelled from the spec: `offset_t::Zero(dim)` comes with the vector type of
`offset.hpp`, which is not part of the sources at hand; it is the all-zero
offset of length `dim`. -/
def offset_t.Zero (dim : Nat) : offset_t := List.replicate dim 0

/-- The loop of `simple` over the axes `m`, in order: `os` is the zero offset
with `os(m) = 1`, and an exception of `add_bond` leaves `simple`. -/
def simple_loop (dim : Nat) : List Nat → unitcell → Except Exception unitcell
  | [], cell => .ok cell
  | m :: ms, cell =>
    let os := (offset_t.Zero dim).set m 1
    match cell.add_bond 0 0 os 0 with
    | (.error e, _) => .error e
    | (.ok _, cell1) => simple_loop dim ms cell1

/-- The static member `simple`. -/
def unitcell.simple (dim : Nat) : Except Exception unitcell :=
  let cell := unitcell.ctor dim
  match cell.add_site (coordinate_t.Zero dim) 0 with
  | (.error e, _) => .error e
  | (.ok _, cell1) => simple_loop dim (List.range dim) cell1

/-- The number of stored bonds whose source is site `i` plus the number of
stored bonds whose target is site `i`. -/
def degree (c : unitcell) (i : Nat) : Nat :=
  (c.bonds_.countP fun b => b.source = i) + (c.bonds_.countP fun b => b.target = i)

/-- Every stored site has a coordinate of length `dimension()` none of whose
components made the range test of `add_site` fire. -/
def SitesValid (c : unitcell) : Prop :=
  ∀ st ∈ c.sites_, st.coordinate.length = c.dimension ∧
    ∀ x ∈ st.coordinate, ¬ (x < 0 ∨ x ≥ 1)

/-- Every stored bond joins valid site indices with an offset of length
`dimension()`. -/
def BondsValid (c : unitcell) : Prop :=
  ∀ b ∈ c.bonds_, b.source < c.num_sites ∧ b.target < c.num_sites ∧
    b.target_offset.length = c.dimension

/-- Every stored multi-bond has as many offsets as targets, valid target
indices and offsets of length `dimension()`. -/
def MultisValid (c : unitcell) : Prop :=
  ∀ m ∈ c.multis_, m.target_offset_v.length = m.target_v.length ∧
    (∀ t ∈ m.target_v, t < c.num_sites) ∧
    (∀ os ∈ m.target_offset_v, os.length = c.dimension)

/-! ## Auxiliary facts -/

namespace unitcell

theorem double_val_lt_val (a b : ℚ) : double.val a < double.val b ↔ a < b := by
  show decide (a < b) = true ↔ a < b
  simp

theorem double_val_le_val (a b : ℚ) : double.val a ≤ double.val b ↔ a ≤ b := by
  show decide (a ≤ b) = true ↔ a ≤ b
  simp

theorem double_zero_eq : (0 : double) = double.val 0 := rfl

theorem double_one_eq : (1 : double) = double.val 1 := rfl

theorem double_in_range_iff (x : double) :
    (0 ≤ x ∧ x < 1) ↔ ∃ q : ℚ, x = double.val q ∧ 0 ≤ q ∧ q < 1 := by
  rw [double_zero_eq, double_one_eq]
  cases x with
  | val q =>
    rw [double_val_le_val, double_val_lt_val]
    constructor
    · intro h; exact ⟨q, rfl, h.1, h.2⟩
    · rintro ⟨q1, hq, h1, h2⟩
      cases hq
      exact ⟨h1, h2⟩
  | nan =>
    constructor
    · intro h; exact absurd h.1 (by decide)
    · rintro ⟨q1, hq, _⟩; cases hq
  | inf =>
    constructor
    · intro h; exact absurd h.2 (by decide)
    · rintro ⟨q1, hq, _⟩; cases hq
  | neg_inf =>
    constructor
    · intro h; exact absurd h.1 (by decide)
    · rintro ⟨q1, hq, _⟩; cases hq

theorem double_in_range_passes (x : double) (h : 0 ≤ x ∧ x < 1) : ¬ (x < 0 ∨ x ≥ 1) := by
  obtain ⟨q, rfl, h0, h1⟩ := (double_in_range_iff x).mp h
  rw [double_zero_eq, double_one_eq, ge_iff_le, double_val_lt_val, double_val_le_val]
  intro hbad
  rcases hbad with hbad | hbad
  · exact absurd h0 (not_le.mpr hbad)
  · exact absurd h1 (not_lt.mpr hbad)

theorem add_site_loop_eq_none_iff (c : unitcell) (pos : coordinate_t)
    (hlen : pos.length = c.dimension) :
    add_site_loop c pos = none ↔ ∀ x ∈ pos, ¬ (x < 0 ∨ x ≥ 1) := by
  unfold add_site_loop
  rw [List.findSome?_eq_none_iff]
  constructor
  · intro h x hx
    obtain ⟨i, hi, rfl⟩ := List.mem_iff_getElem.mp hx
    have hr := h i (List.mem_range.mpr (hlen ▸ hi))
    rw [List.getD_eq_getElem _ _ hi] at hr
    intro hbad
    rw [if_pos hbad] at hr
    exact absurd hr (by simp)
  · intro h i hi
    have hi2 : i < pos.length := hlen ▸ List.mem_range.mp hi
    have hx := h pos[i] (List.getElem_mem hi2)
    rw [List.getD_eq_getElem _ _ hi2, if_neg hx]

theorem add_multi_loop_eq_none_iff (c : unitcell) (s : Nat) (t_v : VS) (os_v : List offset_t) :
    add_multi_loop c s t_v os_v = none ↔
      ∀ i < t_v.length, s < c.num_sites ∧ t_v.getD i 0 < c.num_sites ∧
        (os_v.getD i []).length = c.dimension := by
  unfold add_multi_loop
  rw [List.findSome?_eq_none_iff]
  constructor
  · intro h i hi
    have hr := h i (List.mem_range.mpr hi)
    simp only at hr
    split_ifs at hr with h1 h2
    push_neg at h1 h2
    exact ⟨h1.1, h1.2, h2⟩
  · intro h i hi
    obtain ⟨h1, h2, h3⟩ := h i (List.mem_range.mp hi)
    simp only
    rw [if_neg (by omega), if_neg (not_not.mpr h3)]

theorem add_site_eq_ok_of_pass (c : unitcell) (pos : coordinate_t) (tp : Int)
    (hlen : pos.length = c.dimension) (hpass : ∀ x ∈ pos, ¬ (x < 0 ∨ x ≥ 1)) :
    c.add_site pos tp =
      (.ok c.sites_.length, { c with sites_ := c.sites_ ++ [site_t.mk pos tp] }) := by
  have hloop := (add_site_loop_eq_none_iff c pos hlen).mpr hpass
  simp [add_site, hlen, hloop]

theorem add_site_eq_ok (c : unitcell) (pos : coordinate_t) (tp : Int)
    (hlen : pos.length = c.dimension) (hrange : ∀ x ∈ pos, 0 ≤ x ∧ x < 1) :
    c.add_site pos tp =
      (.ok c.sites_.length, { c with sites_ := c.sites_ ++ [site_t.mk pos tp] }) :=
  add_site_eq_ok_of_pass c pos tp hlen fun x hx => double_in_range_passes x (hrange x hx)

theorem add_site_invalid_iff (c : unitcell) (pos : coordinate_t) (tp : Int) :
    isInvalidArgument (c.add_site pos tp).1 = true ↔
      (pos.length ≠ c.dimension ∨ ∃ x ∈ pos, x < 0 ∨ x ≥ 1) := by
  by_cases hlen : pos.length = c.dimension
  · by_cases hpass : ∀ x ∈ pos, ¬ (x < 0 ∨ x ≥ 1)
    · rw [add_site_eq_ok_of_pass c pos tp hlen hpass]
      simp only [isInvalidArgument, ne_eq, hlen, not_true_eq_false, false_or]
      refine ⟨fun hf => absurd hf (by decide), ?_⟩
      rintro ⟨x, hx, h⟩
      exact absurd h (hpass x hx)
    · have hloop : add_site_loop c pos ≠ none :=
        fun h => hpass ((add_site_loop_eq_none_iff c pos hlen).mp h)
      obtain ⟨e, he⟩ := Option.ne_none_iff_exists'.mp hloop
      cases e with
      | invalid_argument msg =>
        simp only [add_site, hlen, ne_eq, not_true_eq_false, if_false, he, isInvalidArgument,
          false_or, true_iff]
        push_neg at hpass
        obtain ⟨x, hx, h⟩ := hpass
        exact ⟨x, hx, h⟩
  · simp [add_site, hlen, isInvalidArgument]

theorem add_bond_eq_ok (c : unitcell) (s t : Nat) (os : offset_t) (tp : Int)
    (htp : tp ∉ c.m_types_) (hs : s < c.num_sites) (ht : t < c.num_sites)
    (hos : os.length = c.dimension) :
    c.add_bond s t os tp =
      (.ok (c.bonds_.length + c.multis_.length),
        { c with bonds_ := c.bonds_ ++ [bond_t.mk s t os tp],
                 b_types_ := insert tp c.b_types_ }) := by
  simp [add_bond, htp, hos, not_le.mpr hs, not_le.mpr ht]

theorem add_bond_invalid_iff (c : unitcell) (s t : Nat) (os : offset_t) (tp : Int) :
    isInvalidArgument (c.add_bond s t os tp).1 = true ↔
      (tp ∈ c.m_types_ ∨ ¬ s < c.num_sites ∨ ¬ t < c.num_sites ∨ os.length ≠ c.dimension) := by
  have hcard : tp ∈ c.m_types_ → c.m_types_.card ≠ 0 :=
    fun h => Finset.card_ne_zero_of_mem h
  unfold add_bond
  split_ifs with h1 h2 h3
  · simp [isInvalidArgument, h1.1]
  · have : ¬ s < c.num_sites ∨ ¬ t < c.num_sites := by omega
    simp only [isInvalidArgument, true_iff]
    tauto
  · simp only [isInvalidArgument, true_iff]
    tauto
  · have h1m : tp ∉ c.m_types_ := fun h => h1 ⟨h, hcard h⟩
    have : s < c.num_sites ∧ t < c.num_sites := by omega
    simp only [isInvalidArgument]
    refine ⟨fun hf => absurd hf (by decide), ?_⟩
    rintro (h | h | h | h)
    · exact absurd h h1m
    · exact absurd this.1 h
    · exact absurd this.2 h
    · exact absurd h h3

theorem add_bond_ok_inv (c : unitcell) (s t : Nat) (os : offset_t) (tp : Int) (b : Nat)
    (h : (c.add_bond s t os tp).1 = .ok b) :
    tp ∉ c.m_types_ ∧ s < c.num_sites ∧ t < c.num_sites ∧ os.length = c.dimension := by
  have hn : ¬ (isInvalidArgument (c.add_bond s t os tp).1 = true) := by
    rw [h]; simp [isInvalidArgument]
  rw [add_bond_invalid_iff] at hn
  push_neg at hn
  exact hn

theorem add_multi_eq_ok (c : unitcell) (s : Nat) (t_v : VS) (os_v : List offset_t) (tp : Int)
    (hlen : t_v.length = os_v.length) (hone : t_v.length ≠ 1) (htp : tp ∉ c.b_types_)
    (hloop : add_multi_loop c s t_v os_v = none) :
    c.add_multi s t_v os_v tp =
      (.ok (c.bonds_.length + c.multis_.length),
        { c with multis_ := c.multis_ ++ [multi_t.mk s t_v os_v tp],
                 m_types_ := insert tp c.m_types_ }) := by
  unfold add_multi
  rw [if_neg (not_not.mpr hlen), if_neg hone, if_neg (fun h => htp h.1)]
  simp [hloop]

theorem add_multi_invalid_iff (c : unitcell) (s : Nat) (t_v : VS) (os_v : List offset_t)
    (tp : Int) :
    isInvalidArgument (c.add_multi s t_v os_v tp).1 = true ↔
      (t_v.length ≠ os_v.length ∨ t_v.length = 1 ∨ tp ∈ c.b_types_ ∨
        add_multi_loop c s t_v os_v ≠ none) := by
  have hcard : tp ∈ c.b_types_ → c.b_types_.card ≠ 0 :=
    fun h => Finset.card_ne_zero_of_mem h
  unfold add_multi
  split_ifs with h1 h2 h3
  · simp [isInvalidArgument, h1]
  · simp [isInvalidArgument, h2]
  · simp [isInvalidArgument, h3.1]
  · have h3m : tp ∉ c.b_types_ := fun h => h3 ⟨h, hcard h⟩
    cases hl : add_multi_loop c s t_v os_v with
    | some e =>
      cases e with
      | invalid_argument msg => simp [isInvalidArgument]
    | none =>
      simp only [isInvalidArgument, ne_eq, not_true_eq_false, or_false]
      refine ⟨fun hf => absurd hf (by decide), ?_⟩
      rintro (h | h | h)
      · exact absurd h h1
      · exact absurd h h2
      · exact absurd h h3m

theorem add_multi_ok_inv (c : unitcell) (s : Nat) (t_v : VS) (os_v : List offset_t) (tp : Int)
    (b : Nat) (h : (c.add_multi s t_v os_v tp).1 = .ok b) :
    t_v.length = os_v.length ∧ t_v.length ≠ 1 ∧ tp ∉ c.b_types_ ∧
      add_multi_loop c s t_v os_v = none := by
  have hn : ¬ (isInvalidArgument (c.add_multi s t_v os_v tp).1 = true) := by
    rw [h]; simp [isInvalidArgument]
  rw [add_multi_invalid_iff] at hn
  push_neg at hn
  exact hn

theorem add_multi_loop_ne_none_iff (c : unitcell) (s : Nat) (t_v : VS) (os_v : List offset_t)
    (hlen : t_v.length = os_v.length) :
    add_multi_loop c s t_v os_v ≠ none ↔
      ∃ i, ∃ (h1 : i < t_v.length) (h2 : i < os_v.length),
        ¬ s < c.num_sites ∨ ¬ t_v[i] < c.num_sites ∨ os_v[i].length ≠ c.dimension := by
  rw [ne_eq, add_multi_loop_eq_none_iff]
  constructor
  · intro h
    push_neg at h
    obtain ⟨i, hi, hbad⟩ := h
    have hi2 : i < os_v.length := hlen ▸ hi
    rw [List.getD_eq_getElem _ _ hi, List.getD_eq_getElem _ _ hi2] at hbad
    refine ⟨i, hi, hi2, ?_⟩
    by_cases hs : s < c.num_sites
    · by_cases ht : t_v[i] < c.num_sites
      · exact Or.inr (Or.inr (hbad hs ht))
      · exact Or.inr (Or.inl ht)
    · exact Or.inl hs
  · rintro ⟨i, h1, h2, hbad⟩ hall
    obtain ⟨hs, ht, ho⟩ := hall i h1
    rw [List.getD_eq_getElem _ _ h1] at ht
    rw [List.getD_eq_getElem _ _ h2] at ho
    rcases hbad with h | h | h
    · exact h hs
    · exact h ht
    · exact h ho

theorem add_site_cases (c : unitcell) (pos : coordinate_t) (tp : Int) :
    (∃ e, c.add_site pos tp = (.error e, c)) ∨
      c.add_site pos tp =
        (.ok c.sites_.length, { c with sites_ := c.sites_ ++ [site_t.mk pos tp] }) := by
  unfold add_site
  split_ifs with h1
  · exact Or.inl ⟨_, rfl⟩
  · cases add_site_loop c pos with
    | some e => exact Or.inl ⟨e, rfl⟩
    | none => exact Or.inr rfl

theorem add_bond_cases (c : unitcell) (s t : Nat) (os : offset_t) (tp : Int) :
    (∃ e, c.add_bond s t os tp = (.error e, c)) ∨
      (tp ∉ c.m_types_ ∧
        c.add_bond s t os tp =
          (.ok (c.bonds_.length + c.multis_.length),
            { c with bonds_ := c.bonds_ ++ [bond_t.mk s t os tp],
                     b_types_ := insert tp c.b_types_ })) := by
  unfold add_bond
  split_ifs with h1 h2 h3
  · exact Or.inl ⟨_, rfl⟩
  · exact Or.inl ⟨_, rfl⟩
  · exact Or.inl ⟨_, rfl⟩
  · exact Or.inr ⟨fun h => h1 ⟨h, Finset.card_ne_zero_of_mem h⟩, rfl⟩

theorem add_multi_cases (c : unitcell) (s : Nat) (t_v : VS) (os_v : List offset_t) (tp : Int) :
    (∃ e, c.add_multi s t_v os_v tp = (.error e, c)) ∨
      (tp ∉ c.b_types_ ∧
        c.add_multi s t_v os_v tp =
          (.ok (c.bonds_.length + c.multis_.length),
            { c with multis_ := c.multis_ ++ [multi_t.mk s t_v os_v tp],
                     m_types_ := insert tp c.m_types_ })) := by
  unfold add_multi
  split_ifs with h1 h2 h3
  · exact Or.inl ⟨_, rfl⟩
  · exact Or.inl ⟨_, rfl⟩
  · exact Or.inl ⟨_, rfl⟩
  · cases add_multi_loop c s t_v os_v with
    | some e => exact Or.inl ⟨e, rfl⟩
    | none => exact Or.inr ⟨fun h => h3 ⟨h, Finset.card_ne_zero_of_mem h⟩, rfl⟩

end unitcell

theorem link_indices_cons (c : unitcell) (k : Call) (ks : List Call) :
    link_indices c (k :: ks) =
      (if k.isLink then (returned (k.apply c).1).toList else []) ++
        link_indices (k.apply c).2 ks := by
  unfold link_indices
  simp only [outcomes, List.filterMap_cons]
  by_cases hk : k.isLink = true
  · simp only [hk, if_true]
    cases hr : returned (k.apply c).1 <;> simp
  · simp [hk]

theorem link_indices_eq_range (calls : List Call) :
    ∀ c : unitcell, link_indices c calls =
      List.range' (c.num_bonds + c.num_multis) (link_indices c calls).length := by
  induction calls with
  | nil => intro c; rfl
  | cons k ks ih =>
    intro c
    rw [link_indices_cons]
    have hrec := ih (k.apply c).2
    cases k with
    | add_site pos tp =>
      have hcnt : ((Call.add_site pos tp).apply c).2.num_bonds +
          ((Call.add_site pos tp).apply c).2.num_multis = c.num_bonds + c.num_multis := by
        simp only [Call.apply]
        rcases unitcell.add_site_cases c pos tp with ⟨e, he⟩ | he
        · rw [he]
        · rw [he]; rfl
      rw [hcnt] at hrec
      simpa [Call.isLink] using hrec
    | add_bond s t os tp =>
      simp only [Call.apply, Call.isLink, if_true] at hrec ⊢
      rcases unitcell.add_bond_cases c s t os tp with ⟨e, he⟩ | ⟨_, he⟩
      · rw [he] at hrec ⊢
        simpa [returned] using hrec
      · rw [he] at hrec ⊢
        simp only [returned, Option.toList, List.singleton_append, List.length_cons,
          List.range'_succ]
        simp only [unitcell.num_bonds, unitcell.num_multis, List.length_append,
          List.length_singleton] at hrec ⊢
        rw [List.cons.injEq]
        refine ⟨rfl, ?_⟩
        rw [show c.bonds_.length + c.multis_.length + 1 = c.bonds_.length + 1 + c.multis_.length
          by omega]
        exact hrec
    | add_multi s t_v os_v tp =>
      simp only [Call.apply, Call.isLink, if_true] at hrec ⊢
      rcases unitcell.add_multi_cases c s t_v os_v tp with ⟨e, he⟩ | ⟨_, he⟩
      · rw [he] at hrec ⊢
        simpa [returned] using hrec
      · rw [he] at hrec ⊢
        simp only [returned, Option.toList, List.singleton_append, List.length_cons,
          List.range'_succ]
        simp only [unitcell.num_bonds, unitcell.num_multis, List.length_append,
          List.length_singleton] at hrec ⊢
        rw [List.cons.injEq]
        refine ⟨rfl, ?_⟩
        rw [show c.bonds_.length + c.multis_.length + 1 = c.bonds_.length + (c.multis_.length + 1)
          by omega]
        exact hrec

theorem apply_error_state (c : unitcell) (k : Call)
    (h : isInvalidArgument (k.apply c).1 = true) : (k.apply c).2 = c := by
  cases k with
  | add_site pos tp =>
    simp only [Call.apply] at h ⊢
    rcases unitcell.add_site_cases c pos tp with ⟨e, he⟩ | he
    · rw [he]
    · rw [he] at h; exact absurd h (by simp [isInvalidArgument])
  | add_bond s t os tp =>
    simp only [Call.apply] at h ⊢
    rcases unitcell.add_bond_cases c s t os tp with ⟨e, he⟩ | ⟨_, he⟩
    · rw [he]
    · rw [he] at h; exact absurd h (by simp [isInvalidArgument])
  | add_multi s t_v os_v tp =>
    simp only [Call.apply] at h ⊢
    rcases unitcell.add_multi_cases c s t_v os_v tp with ⟨e, he⟩ | ⟨_, he⟩
    · rw [he]
    · rw [he] at h; exact absurd h (by simp [isInvalidArgument])

theorem bond_tags_append (c c1 : unitcell) (b : unitcell.bond_t)
    (h : c1.bonds_ = c.bonds_ ++ [b]) : bond_tags c1 = insert b.type (bond_tags c) := by
  ext x
  simp only [bond_tags, h, List.map_append, List.map_cons, List.map_nil, List.toFinset_append,
    List.toFinset_cons, List.toFinset_nil, Finset.mem_union, Finset.mem_insert,
    Finset.not_mem_empty, or_false]
  tauto

theorem multi_tags_append (c c1 : unitcell) (m : unitcell.multi_t)
    (h : c1.multis_ = c.multis_ ++ [m]) : multi_tags c1 = insert m.type (multi_tags c) := by
  ext x
  simp only [multi_tags, h, List.map_append, List.map_cons, List.map_nil, List.toFinset_append,
    List.toFinset_cons, List.toFinset_nil, Finset.mem_union, Finset.mem_insert,
    Finset.not_mem_empty, or_false]
  tauto

theorem tagInv_ctor (d : Nat) : TagInv (unitcell.ctor d) := by
  refine ⟨rfl, rfl, ?_⟩
  simp [bond_tags, unitcell.ctor]

theorem tagInv_same (c c1 : unitcell) (h : TagInv c) (hbonds : c1.bonds_ = c.bonds_)
    (hmultis : c1.multis_ = c.multis_) (hbt : c1.b_types_ = c.b_types_)
    (hmt : c1.m_types_ = c.m_types_) : TagInv c1 := by
  unfold TagInv bond_tags multi_tags at h ⊢
  rw [hbonds, hmultis, hbt, hmt]
  exact h

theorem tagInv_bond_step (c c1 : unitcell) (b : unitcell.bond_t) (h : TagInv c)
    (hnot : b.type ∉ c.m_types_) (hbonds : c1.bonds_ = c.bonds_ ++ [b])
    (hmultis : c1.multis_ = c.multis_) (hbt : c1.b_types_ = insert b.type c.b_types_)
    (hmt : c1.m_types_ = c.m_types_) : TagInv c1 := by
  obtain ⟨hb, hm, hd⟩ := h
  have h1 : bond_tags c1 = insert b.type (bond_tags c) := bond_tags_append c c1 b hbonds
  have h2 : multi_tags c1 = multi_tags c := by unfold multi_tags; rw [hmultis]
  refine ⟨?_, ?_, ?_⟩
  · rw [h1, hbt, hb]
  · rw [h2, hmt, hm]
  · rw [h1, h2, Finset.disjoint_insert_left]
    exact ⟨hm ▸ hnot, hd⟩

theorem tagInv_multi_step (c c1 : unitcell) (m : unitcell.multi_t) (h : TagInv c)
    (hnot : m.type ∉ c.b_types_) (hbonds : c1.bonds_ = c.bonds_)
    (hmultis : c1.multis_ = c.multis_ ++ [m]) (hbt : c1.b_types_ = c.b_types_)
    (hmt : c1.m_types_ = insert m.type c.m_types_) : TagInv c1 := by
  obtain ⟨hb, hm, hd⟩ := h
  have h1 : bond_tags c1 = bond_tags c := by unfold bond_tags; rw [hbonds]
  have h2 : multi_tags c1 = insert m.type (multi_tags c) := multi_tags_append c c1 m hmultis
  refine ⟨?_, ?_, ?_⟩
  · rw [h1, hbt, hb]
  · rw [h2, hmt, hm]
  · rw [h1, h2, Finset.disjoint_insert_right]
    exact ⟨hb ▸ hnot, hd⟩

theorem tagInv_apply (c : unitcell) (k : Call) (h : TagInv c) : TagInv (k.apply c).2 := by
  cases k with
  | add_site pos tp =>
    simp only [Call.apply]
    rcases unitcell.add_site_cases c pos tp with ⟨e, he⟩ | he
    · rw [he]; exact h
    · rw [he]; exact tagInv_same c _ h rfl rfl rfl rfl
  | add_bond s t os tp =>
    simp only [Call.apply]
    rcases unitcell.add_bond_cases c s t os tp with ⟨e, he⟩ | ⟨hnot, he⟩
    · rw [he]; exact h
    · rw [he]
      exact tagInv_bond_step c _ (unitcell.bond_t.mk s t os tp) h hnot rfl rfl rfl rfl
  | add_multi s t_v os_v tp =>
    simp only [Call.apply]
    rcases unitcell.add_multi_cases c s t_v os_v tp with ⟨e, he⟩ | ⟨hnot, he⟩
    · rw [he]; exact h
    · rw [he]
      exact tagInv_multi_step c _ (unitcell.multi_t.mk s t_v os_v tp) h hnot rfl rfl rfl rfl

theorem tagInv_exec (calls : List Call) : ∀ c : unitcell, TagInv c → TagInv (exec c calls) := by
  induction calls with
  | nil => intro c h; exact h
  | cons k ks ih => intro c h; exact ih _ (tagInv_apply c k h)

theorem apply_types_mono (c : unitcell) (k : Call) :
    c.b_types_ ⊆ (k.apply c).2.b_types_ ∧ c.m_types_ ⊆ (k.apply c).2.m_types_ := by
  cases k with
  | add_site pos tp =>
    simp only [Call.apply]
    rcases unitcell.add_site_cases c pos tp with ⟨e, he⟩ | he
    · rw [he]; exact ⟨Finset.Subset.refl _, Finset.Subset.refl _⟩
    · rw [he]; exact ⟨Finset.Subset.refl _, Finset.Subset.refl _⟩
  | add_bond s t os tp =>
    simp only [Call.apply]
    rcases unitcell.add_bond_cases c s t os tp with ⟨e, he⟩ | ⟨_, he⟩
    · rw [he]; exact ⟨Finset.Subset.refl _, Finset.Subset.refl _⟩
    · rw [he]; exact ⟨Finset.subset_insert _ _, Finset.Subset.refl _⟩
  | add_multi s t_v os_v tp =>
    simp only [Call.apply]
    rcases unitcell.add_multi_cases c s t_v os_v tp with ⟨e, he⟩ | ⟨_, he⟩
    · rw [he]; exact ⟨Finset.Subset.refl _, Finset.Subset.refl _⟩
    · rw [he]; exact ⟨Finset.Subset.refl _, Finset.subset_insert _ _⟩

theorem exec_types_mono (calls : List Call) :
    ∀ c : unitcell, c.b_types_ ⊆ (exec c calls).b_types_ ∧
      c.m_types_ ⊆ (exec c calls).m_types_ := by
  induction calls with
  | nil => intro c; exact ⟨Finset.Subset.refl _, Finset.Subset.refl _⟩
  | cons k ks ih =>
    intro c
    have h1 := apply_types_mono c k
    have h2 := ih (k.apply c).2
    exact ⟨h1.1.trans h2.1, h1.2.trans h2.2⟩

/-! ## The contract of `add_site` -/

open unitcell

/-- C1: on every cell, a coordinate whose length is `dimension()` and whose
components all lie in `[0, 1)` (so each is a number: NaN and the infinities
satisfy no such pair of comparisons) is accepted by `add_site` with every type
tag:
the call returns the site count measured before it, the site sequence becomes
the old one with the new site appended at the end, and the dimension, the bond
sequence, the multi-bond sequence and both type-tag sets are unchanged. -/
theorem add_site_succeeds_and_appends (c : unitcell) (pos : coordinate_t) (tp : Int)
    (hlen : pos.length = c.dimension) (hrange : ∀ x ∈ pos, 0 ≤ x ∧ x < 1) :
    (c.add_site pos tp).1 = .ok c.num_sites ∧
    (c.add_site pos tp).2.sites_ = c.sites_ ++ [site_t.mk pos tp] ∧
    (c.add_site pos tp).2.dim_ = c.dim_ ∧
    (c.add_site pos tp).2.bonds_ = c.bonds_ ∧
    (c.add_site pos tp).2.multis_ = c.multis_ ∧
    (c.add_site pos tp).2.b_types_ = c.b_types_ ∧
    (c.add_site pos tp).2.m_types_ = c.m_types_ := by
  rw [add_site_eq_ok c pos tp hlen hrange]
  exact ⟨rfl, rfl, rfl, rfl, rfl, rfl, rfl⟩

theorem add_site_succeeds_and_appends_witness :
    (([0, double.val (1 / 2)] : coordinate_t).length = (ctor 2).dimension ∧
      ∀ x ∈ ([0, double.val (1 / 2)] : coordinate_t), 0 ≤ x ∧ x < 1) ∧
    ((ctor 2).add_site [0, double.val (1 / 2)] 7).1 = .ok 0 ∧
    ((ctor 2).add_site [0, double.val (1 / 2)] 7).2.sites_ =
      [site_t.mk [0, double.val (1 / 2)] 7] :=
  have hrange : ∀ x ∈ ([0, double.val (1 / 2)] : coordinate_t), 0 ≤ x ∧ x < 1 := by
    intro x hx
    simp only [List.mem_cons, List.mem_singleton, List.not_mem_nil, or_false] at hx
    rcases hx with rfl | rfl
    · decide
    · rw [double_zero_eq, double_one_eq, double_val_le_val, double_val_lt_val]
      norm_num
  have h := add_site_succeeds_and_appends (ctor 2) [0, double.val (1 / 2)] 7 rfl hrange
  ⟨⟨rfl, hrange⟩, h.1, h.2.1⟩

/-- C2: `add_site` throws `std::invalid_argument` exactly when the coordinate's
length differs from `dimension()` or some component is negative or at least 1
(on numbers these are the comparisons of the rationals);
so a coordinate with a component equal to 1 is rejected, and the all-zero
coordinate of the right length is accepted. -/
theorem add_site_fails_iff (c : unitcell) (pos : coordinate_t) (tp : Int) :
    (isInvalidArgument (c.add_site pos tp).1 = true ↔
      (pos.length ≠ c.dimension ∨ ∃ x ∈ pos, x < 0 ∨ x ≥ 1)) ∧
    ((1 : double) ∈ pos → isInvalidArgument (c.add_site pos tp).1 = true) ∧
    (pos.length = c.dimension → (∀ x ∈ pos, x = 0) →
      (c.add_site pos tp).1 = .ok c.num_sites) := by
  refine ⟨add_site_invalid_iff c pos tp, ?_, ?_⟩
  · intro h1
    exact (add_site_invalid_iff c pos tp).mpr (Or.inr ⟨1, h1, Or.inr (by decide)⟩)
  · intro hlen hzero
    have hrange : ∀ x ∈ pos, 0 ≤ x ∧ x < 1 := by
      intro x hx
      rw [hzero x hx]
      decide
    rw [add_site_eq_ok c pos tp hlen hrange]
    rfl

theorem add_site_fails_iff_witness :
    isInvalidArgument ((ctor 2).add_site [0, 1] 3).1 = true ∧
    isInvalidArgument ((ctor 2).add_site [0] 3).1 = true ∧
    isInvalidArgument ((ctor 1).add_site [double.val (-1 / 2)] 3).1 = true ∧
    ((ctor 2).add_site [0, 0] 3).1 = .ok 0 :=
  ⟨(add_site_fails_iff (ctor 2) [0, 1] 3).2.1 (by simp),
   (add_site_fails_iff (ctor 2) [0] 3).1.mpr (Or.inl (by decide)),
   (add_site_fails_iff (ctor 1) [double.val (-1 / 2)] 3).1.mpr
     (Or.inr ⟨double.val (-1 / 2), by simp,
       Or.inl (by rw [double_zero_eq, double_val_lt_val]; norm_num)⟩),
   (add_site_fails_iff (ctor 2) [0, 0] 3).2.2 rfl (by simp)⟩

/-! ## The contract of `add_bond` -/

/-- C3: whenever `add_bond(s, t, os, tp)` succeeds, it returns
`num_bonds() + num_multis()` as measured before the call, the bond sequence
becomes the old one with the bond `(s, t, os, tp)` appended at the end, `tp`
belongs to the bond-type set afterwards (which is the old set with `tp`
inserted), and the dimension, the site sequence, the multi-bond sequence and
the multi-type set are unchanged. -/
theorem add_bond_success (c : unitcell) (s t : Nat) (os : offset_t) (tp : Int) (b : Nat)
    (h : (c.add_bond s t os tp).1 = .ok b) :
    b = c.num_bonds + c.num_multis ∧
    (c.add_bond s t os tp).2.bonds_ = c.bonds_ ++ [bond_t.mk s t os tp] ∧
    tp ∈ (c.add_bond s t os tp).2.b_types_ ∧
    (c.add_bond s t os tp).2.b_types_ = insert tp c.b_types_ ∧
    (c.add_bond s t os tp).2.dim_ = c.dim_ ∧
    (c.add_bond s t os tp).2.sites_ = c.sites_ ∧
    (c.add_bond s t os tp).2.multis_ = c.multis_ ∧
    (c.add_bond s t os tp).2.m_types_ = c.m_types_ := by
  obtain ⟨htp, hs, ht, hos⟩ := add_bond_ok_inv c s t os tp b h
  rw [add_bond_eq_ok c s t os tp htp hs ht hos] at h ⊢
  refine ⟨?_, rfl, Finset.mem_insert_self _ _, rfl, rfl, rfl, rfl, rfl⟩
  simp only [Except.ok.injEq] at h
  exact h.symm

theorem add_bond_success_witness :
    (((ctor 2).add_site [0, 0] 0).2.add_bond 0 0 [1, 0] 4).1 = .ok 0 ∧
    (((ctor 2).add_site [0, 0] 0).2.add_bond 0 0 [1, 0] 4).2.bonds_ = [bond_t.mk 0 0 [1, 0] 4] ∧
    (4 : Int) ∈ (((ctor 2).add_site [0, 0] 0).2.add_bond 0 0 [1, 0] 4).2.b_types_ :=
  have h0 : (((ctor 2).add_site [0, 0] 0).2.add_bond 0 0 [1, 0] 4).1 = .ok 0 := rfl
  have h := add_bond_success ((ctor 2).add_site [0, 0] 0).2 0 0 [1, 0] 4 0 h0
  ⟨h0, h.2.1, h.2.2.1⟩

/-- C4: `add_bond(s, t, os, tp)` throws `std::invalid_argument` exactly when `tp`
is registered as a multi-bond type, or `s` is not less than `num_sites()`, or `t`
is not less than `num_sites()`, or the length of `os` differs from
`dimension()`; so `add_bond(0, 99, [0,0], 0)` fails on every 2-dimensional cell
with one site. -/
theorem add_bond_fails_iff (c : unitcell) (s t : Nat) (os : offset_t) (tp : Int) :
    (isInvalidArgument (c.add_bond s t os tp).1 = true ↔
      (tp ∈ c.m_types_ ∨ ¬ s < c.num_sites ∨ ¬ t < c.num_sites ∨
        os.length ≠ c.dimension)) ∧
    (c.dimension = 2 → c.num_sites = 1 →
      isInvalidArgument (c.add_bond 0 99 [0, 0] 0).1 = true) := by
  refine ⟨add_bond_invalid_iff c s t os tp, ?_⟩
  intro _ hn
  rw [add_bond_invalid_iff]
  right; right; left
  omega

theorem add_bond_fails_iff_witness :
    isInvalidArgument (((ctor 2).add_site [0, 0] 0).2.add_bond 0 99 [0, 0] 0).1 = true ∧
    isInvalidArgument (((ctor 2).add_site [0, 0] 0).2.add_bond 0 0 [0] 0).1 = true :=
  ⟨(add_bond_fails_iff ((ctor 2).add_site [0, 0] 0).2 0 99 [0, 0] 0).2 rfl rfl,
   (add_bond_fails_iff ((ctor 2).add_site [0, 0] 0).2 0 0 [0] 0).1.mpr
     (Or.inr (Or.inr (Or.inr (by decide))))⟩

/-! ## The contract of `add_multi` -/

/-- C5: whenever `add_multi(s, targets, offsets, tp)` succeeds, it returns
`num_bonds() + num_multis()` as measured before the call, the multi-bond
sequence becomes the old one with the multi-bond `(s, targets, offsets, tp)`
appended at the end (targets and offsets as given, its `num_act()` being the
number of targets plus one), `tp` belongs to the multi-type set afterwards
(which is the old set with `tp` inserted), and the dimension, the site
sequence, the bond sequence and the bond-type set are unchanged. -/
theorem add_multi_success (c : unitcell) (s : Nat) (t_v : VS) (os_v : List offset_t)
    (tp : Int) (b : Nat) (h : (c.add_multi s t_v os_v tp).1 = .ok b) :
    b = c.num_bonds + c.num_multis ∧
    (c.add_multi s t_v os_v tp).2.multis_ = c.multis_ ++ [multi_t.mk s t_v os_v tp] ∧
    (multi_t.mk s t_v os_v tp).num_act = t_v.length + 1 ∧
    tp ∈ (c.add_multi s t_v os_v tp).2.m_types_ ∧
    (c.add_multi s t_v os_v tp).2.m_types_ = insert tp c.m_types_ ∧
    (c.add_multi s t_v os_v tp).2.dim_ = c.dim_ ∧
    (c.add_multi s t_v os_v tp).2.sites_ = c.sites_ ∧
    (c.add_multi s t_v os_v tp).2.bonds_ = c.bonds_ ∧
    (c.add_multi s t_v os_v tp).2.b_types_ = c.b_types_ := by
  obtain ⟨hlen, hone, htp, hloop⟩ := add_multi_ok_inv c s t_v os_v tp b h
  rw [add_multi_eq_ok c s t_v os_v tp hlen hone htp hloop] at h ⊢
  refine ⟨?_, rfl, rfl, Finset.mem_insert_self _ _, rfl, rfl, rfl, rfl, rfl⟩
  simp only [Except.ok.injEq] at h
  exact h.symm

theorem add_multi_success_witness :
    (((ctor 1).add_site [0] 0).2.add_multi 0 [0, 0] [[1], [2]] 9).1 = .ok 0 ∧
    (((ctor 1).add_site [0] 0).2.add_multi 0 [0, 0] [[1], [2]] 9).2.multis_ =
      [multi_t.mk 0 [0, 0] [[1], [2]] 9] ∧
    (multi_t.mk 0 [0, 0] [[1], [2]] 9).num_act = 3 :=
  have h0 : (((ctor 1).add_site [0] 0).2.add_multi 0 [0, 0] [[1], [2]] 9).1 = .ok 0 := rfl
  have h := add_multi_success ((ctor 1).add_site [0] 0).2 0 [0, 0] [[1], [2]] 9 0 h0
  ⟨h0, h.2.1, h.2.2.1⟩

/-- C6: `add_multi(s, targets, offsets, tp)` throws `std::invalid_argument`
exactly when targets and offsets have different lengths, or there is exactly
one target, or `tp` is registered as an ordinary-bond type, or at some position
`i` the source `s` is not a valid site index, `targets[i]` is not a valid site
index, or `offsets[i]` does not have length `dimension()`; so every call with
exactly one target fails. -/
theorem add_multi_fails_iff (c : unitcell) (s : Nat) (t_v : VS) (os_v : List offset_t)
    (tp : Int) :
    (isInvalidArgument (c.add_multi s t_v os_v tp).1 = true ↔
      (t_v.length ≠ os_v.length ∨ t_v.length = 1 ∨ tp ∈ c.b_types_ ∨
        ∃ i, ∃ (h1 : i < t_v.length) (h2 : i < os_v.length),
          ¬ s < c.num_sites ∨ ¬ t_v[i] < c.num_sites ∨ os_v[i].length ≠ c.dimension)) ∧
    (t_v.length = 1 → isInvalidArgument (c.add_multi s t_v os_v tp).1 = true) := by
  constructor
  · rw [add_multi_invalid_iff]
    by_cases hlen : t_v.length = os_v.length
    · rw [add_multi_loop_ne_none_iff c s t_v os_v hlen]
    · exact ⟨fun _ => Or.inl hlen, fun _ => Or.inl hlen⟩
  · intro hone
    exact (add_multi_invalid_iff c s t_v os_v tp).mpr (Or.inr (Or.inl hone))

theorem add_multi_fails_iff_witness :
    isInvalidArgument (((ctor 1).add_site [0] 0).2.add_multi 0 [0] [[1]] 9).1 = true ∧
    isInvalidArgument (((ctor 1).add_site [0] 0).2.add_multi 0 [0, 5] [[1], [2]] 9).1 = true :=
  ⟨(add_multi_fails_iff ((ctor 1).add_site [0] 0).2 0 [0] [[1]] 9).2 rfl,
   (add_multi_fails_iff ((ctor 1).add_site [0] 0).2 0 [0, 5] [[1], [2]] 9).1.mpr
     (Or.inr (Or.inr (Or.inr ⟨1, by decide, by decide, Or.inr (Or.inl (by decide))⟩)))⟩

/-! ## Sequences of calls -/

/-- C7: for every sequence of `add_site`, `add_bond` and `add_multi` calls
applied to a freshly constructed cell, the values returned by the successful
`add_bond` and `add_multi` calls, taken in call order, are `0, 1, 2, ...`: the
`k`-th of them is `k`, so no two of them are equal. -/
theorem link_indices_count_up (d : Nat) (calls : List Call) :
    link_indices (ctor d) calls = List.range (link_indices (ctor d) calls).length ∧
    (∀ k (hk : k < (link_indices (ctor d) calls).length),
      (link_indices (ctor d) calls)[k] = k) ∧
    (link_indices (ctor d) calls).Nodup := by
  have h := link_indices_eq_range calls (ctor d)
  have h0 : (ctor d).num_bonds + (ctor d).num_multis = 0 := rfl
  rw [h0, ← List.range_eq_range'] at h
  refine ⟨h, ?_, ?_⟩
  · intro k hk
    have hget := congrArg (fun l : List Nat => l[k]?) h
    simp only [List.getElem?_range hk] at hget
    exact List.getElem_eq_iff.mpr hget
  · rw [h]
    exact List.nodup_range _

/-- C8: in every cell reached from a freshly constructed cell by a sequence of
`add_site`, `add_bond` and `add_multi` calls, successful or failing, the set of
type tags carried by the stored bonds and the set of type tags carried by the
stored multi-bonds are disjoint: no stored bond has the type tag of a stored
multi-bond. -/
theorem stored_tags_disjoint (d : Nat) (calls : List Call) :
    Disjoint (bond_tags (exec (ctor d) calls)) (multi_tags (exec (ctor d) calls)) ∧
    ∀ b ∈ (exec (ctor d) calls).bonds_, ∀ m ∈ (exec (ctor d) calls).multis_,
      b.type ≠ m.type := by
  have h := (tagInv_exec calls (ctor d) (tagInv_ctor d)).2.2
  refine ⟨h, ?_⟩
  intro b hb m hm heq
  have h1 : b.type ∈ bond_tags (exec (ctor d) calls) := by
    unfold bond_tags
    exact List.mem_toFinset.mpr (List.mem_map.mpr ⟨b, hb, rfl⟩)
  have h2 : b.type ∈ multi_tags (exec (ctor d) calls) := by
    unfold multi_tags
    exact List.mem_toFinset.mpr (List.mem_map.mpr ⟨m, hm, heq.symm⟩)
  exact Finset.disjoint_left.mp h h1 h2

/-- C9: once `add_bond` has succeeded with type `tp`, every later `add_multi`
call with type `tp` fails, and once `add_multi` has succeeded with type `tp`,
every later `add_bond` call with type `tp` fails, whatever calls are made in
between and whatever the other arguments are; and on a cell reached from a
freshly constructed one that holds no bonds and no multi-bonds, `add_bond` and
`add_multi` succeed with every type tag when their other arguments pass the
checks (valid site indices, offsets of length `dimension()`, as many offsets as
targets and not exactly one target). -/
theorem type_partition_over_time :
    (∀ (c : unitcell) (s t : Nat) (os : offset_t) (tp : Int) (b : Nat),
      (c.add_bond s t os tp).1 = .ok b →
      ∀ (calls : List Call) (s1 : Nat) (t_v : VS) (os_v : List offset_t),
        isInvalidArgument
          ((exec (c.add_bond s t os tp).2 calls).add_multi s1 t_v os_v tp).1 = true) ∧
    (∀ (c : unitcell) (s : Nat) (t_v : VS) (os_v : List offset_t) (tp : Int) (b : Nat),
      (c.add_multi s t_v os_v tp).1 = .ok b →
      ∀ (calls : List Call) (s1 t1 : Nat) (os : offset_t),
        isInvalidArgument
          ((exec (c.add_multi s t_v os_v tp).2 calls).add_bond s1 t1 os tp).1 = true) ∧
    (∀ (d : Nat) (calls : List Call),
      (exec (ctor d) calls).bonds_ = [] → (exec (ctor d) calls).multis_ = [] →
      ∀ tp : Int,
        (∀ (s t : Nat) (os : offset_t),
          s < (exec (ctor d) calls).num_sites → t < (exec (ctor d) calls).num_sites →
          os.length = (exec (ctor d) calls).dimension →
          ((exec (ctor d) calls).add_bond s t os tp).1 = .ok 0) ∧
        (∀ (s : Nat) (t_v : VS) (os_v : List offset_t),
          t_v.length = os_v.length → t_v.length ≠ 1 →
          (∀ i, ∀ (h1 : i < t_v.length) (h2 : i < os_v.length),
            s < (exec (ctor d) calls).num_sites ∧ t_v[i] < (exec (ctor d) calls).num_sites ∧
              os_v[i].length = (exec (ctor d) calls).dimension) →
          ((exec (ctor d) calls).add_multi s t_v os_v tp).1 = .ok 0)) := by
  refine ⟨?_, ?_, ?_⟩
  · intro c s t os tp b hok calls s1 t_v os_v
    have hin : tp ∈ (c.add_bond s t os tp).2.b_types_ := by
      rcases add_bond_cases c s t os tp with ⟨e, he⟩ | ⟨_, he⟩
      · rw [he] at hok; exact absurd hok (by simp)
      · rw [he]; exact Finset.mem_insert_self _ _
    have hlater := (exec_types_mono calls (c.add_bond s t os tp).2).1 hin
    exact (add_multi_invalid_iff _ s1 t_v os_v tp).mpr (Or.inr (Or.inr (Or.inl hlater)))
  · intro c s t_v os_v tp b hok calls s1 t1 os
    have hin : tp ∈ (c.add_multi s t_v os_v tp).2.m_types_ := by
      rcases add_multi_cases c s t_v os_v tp with ⟨e, he⟩ | ⟨_, he⟩
      · rw [he] at hok; exact absurd hok (by simp)
      · rw [he]; exact Finset.mem_insert_self _ _
    have hlater := (exec_types_mono calls (c.add_multi s t_v os_v tp).2).2 hin
    exact (add_bond_invalid_iff _ s1 t1 os tp).mpr (Or.inl hlater)
  · intro d calls hbonds hmultis tp
    obtain ⟨hb, hm, _⟩ := tagInv_exec calls (ctor d) (tagInv_ctor d)
    have hb0 : tp ∉ (exec (ctor d) calls).b_types_ := by
      rw [hb]; unfold bond_tags; rw [hbonds]; simp
    have hm0 : tp ∉ (exec (ctor d) calls).m_types_ := by
      rw [hm]; unfold multi_tags; rw [hmultis]; simp
    constructor
    · intro s t os hs ht hos
      rw [add_bond_eq_ok _ s t os tp hm0 hs ht hos, hbonds, hmultis]
      rfl
    · intro s t_v os_v hlen hone hpos
      have hloop : add_multi_loop (exec (ctor d) calls) s t_v os_v = none := by
        by_contra hne
        obtain ⟨i, h1, h2, hbad⟩ := (add_multi_loop_ne_none_iff _ s t_v os_v hlen).mp hne
        obtain ⟨hs, ht, ho⟩ := hpos i h1 h2
        rcases hbad with h | h | h
        · exact h hs
        · exact h ht
        · exact h ho
      rw [add_multi_eq_ok _ s t_v os_v tp hlen hone hb0 hloop, hbonds, hmultis]
      rfl

theorem type_partition_over_time_witness :
    ((((ctor 2).add_site [0, 0] 0).2.add_bond 0 0 [1, 0] 5).1 = .ok 0 ∧
      isInvalidArgument
        ((exec (((ctor 2).add_site [0, 0] 0).2.add_bond 0 0 [1, 0] 5).2
          [Call.add_site [double.val (1 / 2), 0] 1, Call.add_bond 0 1 [0, 1] 5]).add_multi
            0 [0, 1] [[0, 0], [1, 1]] 5).1 = true) ∧
    ((((ctor 2).add_site [0, 0] 0).2.add_multi 0 [0, 0] [[1, 0], [0, 1]] 7).1 = .ok 0 ∧
      isInvalidArgument
        ((exec (((ctor 2).add_site [0, 0] 0).2.add_multi 0 [0, 0] [[1, 0], [0, 1]] 7).2
          [Call.add_site [double.val (1 / 2), 0] 1]).add_bond 0 1 [0, 1] 7).1 = true) ∧
    ((exec (ctor 2) [Call.add_site [0, 0] 0, Call.add_bond 0 99 [0, 0] 3]).add_bond
        0 0 [1, 0] (-4)).1 = .ok 0 ∧
    ((exec (ctor 2) [Call.add_site [0, 0] 0, Call.add_bond 0 99 [0, 0] 3]).add_multi
        0 [0, 0] [[1, 0], [0, 1]] (-4)).1 = .ok 0 :=
  ⟨⟨rfl, type_partition_over_time.1 ((ctor 2).add_site [0, 0] 0).2 0 0 [1, 0] 5 0 rfl
      [Call.add_site [double.val (1 / 2), 0] 1, Call.add_bond 0 1 [0, 1] 5] 0 [0, 1] [[0, 0], [1, 1]]⟩,
   ⟨rfl, type_partition_over_time.2.1 ((ctor 2).add_site [0, 0] 0).2 0 [0, 0] [[1, 0], [0, 1]] 7
      0 rfl [Call.add_site [double.val (1 / 2), 0] 1] 0 1 [0, 1]⟩,
   ((type_partition_over_time.2.2 2 [Call.add_site [0, 0] 0, Call.add_bond 0 99 [0, 0] 3]
      rfl rfl (-4)).1 0 0 [1, 0] (by decide) (by decide) rfl),
   ((type_partition_over_time.2.2 2 [Call.add_site [0, 0] 0, Call.add_bond 0 99 [0, 0] 3]
      rfl rfl (-4)).2 0 [0, 0] [[1, 0], [0, 1]] rfl (by decide)
      (by
        intro i h1 h2
        have hi : i = 0 ∨ i = 1 := by
          simp only [List.length_cons, List.length_nil] at h1
          omega
        rcases hi with rfl | rfl <;> exact ⟨by decide, Nat.zero_lt_one, rfl⟩))⟩

/-- C10: a failing `add_site`, `add_bond` or `add_multi` call leaves the cell
exactly as it was before the call: dimension, site, bond and multi-bond
sequences and both type-tag sets are unchanged, so a rejected `add_bond` or
`add_multi` registers no type tag and does not advance the combined index. -/
theorem failing_call_changes_nothing (c : unitcell) :
    (∀ (pos : coordinate_t) (tp : Int),
      isInvalidArgument (c.add_site pos tp).1 = true → (c.add_site pos tp).2 = c) ∧
    (∀ (s t : Nat) (os : offset_t) (tp : Int),
      isInvalidArgument (c.add_bond s t os tp).1 = true →
        (c.add_bond s t os tp).2 = c ∧
        (c.add_bond s t os tp).2.b_types_ = c.b_types_ ∧
        (c.add_bond s t os tp).2.num_bonds + (c.add_bond s t os tp).2.num_multis =
          c.num_bonds + c.num_multis) ∧
    (∀ (s : Nat) (t_v : VS) (os_v : List offset_t) (tp : Int),
      isInvalidArgument (c.add_multi s t_v os_v tp).1 = true →
        (c.add_multi s t_v os_v tp).2 = c ∧
        (c.add_multi s t_v os_v tp).2.m_types_ = c.m_types_ ∧
        (c.add_multi s t_v os_v tp).2.num_bonds + (c.add_multi s t_v os_v tp).2.num_multis =
          c.num_bonds + c.num_multis) := by
  refine ⟨?_, ?_, ?_⟩
  · intro pos tp h
    exact apply_error_state c (.add_site pos tp) h
  · intro s t os tp h
    have hc : (c.add_bond s t os tp).2 = c := apply_error_state c (.add_bond s t os tp) h
    rw [hc]
    exact ⟨rfl, rfl, rfl⟩
  · intro s t_v os_v tp h
    have hc : (c.add_multi s t_v os_v tp).2 = c :=
      apply_error_state c (.add_multi s t_v os_v tp) h
    rw [hc]
    exact ⟨rfl, rfl, rfl⟩

theorem failing_call_changes_nothing_witness :
    (isInvalidArgument ((ctor 2).add_site [0, 1] 3).1 = true ∧
      ((ctor 2).add_site [0, 1] 3).2 = ctor 2) ∧
    (isInvalidArgument (((ctor 2).add_site [0, 0] 0).2.add_bond 0 99 [0, 0] 6).1 = true ∧
      (((ctor 2).add_site [0, 0] 0).2.add_bond 0 99 [0, 0] 6).2 =
        ((ctor 2).add_site [0, 0] 0).2) ∧
    (isInvalidArgument (((ctor 2).add_site [0, 0] 0).2.add_multi 0 [0, 0] [[0, 0], [1]] 6).1
        = true ∧
      (((ctor 2).add_site [0, 0] 0).2.add_multi 0 [0, 0] [[0, 0], [1]] 6).2 =
        ((ctor 2).add_site [0, 0] 0).2) :=
  ⟨⟨rfl, (failing_call_changes_nothing (ctor 2)).1 [0, 1] 3 rfl⟩,
   ⟨rfl, ((failing_call_changes_nothing ((ctor 2).add_site [0, 0] 0).2).2.1
      0 99 [0, 0] 6 rfl).1⟩,
   ⟨rfl, ((failing_call_changes_nothing ((ctor 2).add_site [0, 0] 0).2).2.2
      0 [0, 0] [[0, 0], [1]] 6 rfl).1⟩⟩

/-! ## Auxiliary facts: what a successful call was given -/

theorem add_site_cases_full (c : unitcell) (pos : coordinate_t) (tp : Int) :
    (∃ e, c.add_site pos tp = (.error e, c)) ∨
      (pos.length = c.dimension ∧ (∀ x ∈ pos, ¬ (x < 0 ∨ x ≥ 1)) ∧
        c.add_site pos tp =
          (.ok c.sites_.length, { c with sites_ := c.sites_ ++ [site_t.mk pos tp] })) := by
  rcases add_site_cases c pos tp with h | h
  · exact Or.inl h
  · have hn : ¬ (isInvalidArgument (c.add_site pos tp).1 = true) := by
      rw [h]; simp [isInvalidArgument]
    rw [add_site_invalid_iff] at hn
    have hlen : pos.length = c.dimension := by
      by_contra hne
      exact hn (Or.inl hne)
    exact Or.inr ⟨hlen, fun x hx hbad => hn (Or.inr ⟨x, hx, hbad⟩), h⟩

theorem add_bond_cases_full (c : unitcell) (s t : Nat) (os : offset_t) (tp : Int) :
    (∃ e, c.add_bond s t os tp = (.error e, c)) ∨
      (tp ∉ c.m_types_ ∧ s < c.num_sites ∧ t < c.num_sites ∧ os.length = c.dimension ∧
        c.add_bond s t os tp =
          (.ok (c.bonds_.length + c.multis_.length),
            { c with bonds_ := c.bonds_ ++ [bond_t.mk s t os tp],
                     b_types_ := insert tp c.b_types_ })) := by
  rcases add_bond_cases c s t os tp with h | ⟨_, h⟩
  · exact Or.inl h
  · have hok : (c.add_bond s t os tp).1 = .ok (c.bonds_.length + c.multis_.length) := by
      rw [h]
    obtain ⟨h1, h2, h3, h4⟩ := add_bond_ok_inv c s t os tp _ hok
    exact Or.inr ⟨h1, h2, h3, h4, h⟩

theorem add_multi_cases_full (c : unitcell) (s : Nat) (t_v : VS) (os_v : List offset_t)
    (tp : Int) :
    (∃ e, c.add_multi s t_v os_v tp = (.error e, c)) ∨
      (tp ∉ c.b_types_ ∧ t_v.length = os_v.length ∧ t_v.length ≠ 1 ∧
        (∀ i < t_v.length, s < c.num_sites ∧ t_v.getD i 0 < c.num_sites ∧
          (os_v.getD i []).length = c.dimension) ∧
        c.add_multi s t_v os_v tp =
          (.ok (c.bonds_.length + c.multis_.length),
            { c with multis_ := c.multis_ ++ [multi_t.mk s t_v os_v tp],
                     m_types_ := insert tp c.m_types_ })) := by
  rcases add_multi_cases c s t_v os_v tp with h | ⟨_, h⟩
  · exact Or.inl h
  · have hok : (c.add_multi s t_v os_v tp).1 = .ok (c.bonds_.length + c.multis_.length) := by
      rw [h]
    obtain ⟨h1, h2, h3, h4⟩ := add_multi_ok_inv c s t_v os_v tp _ hok
    exact Or.inr ⟨h3, h1, h2, (add_multi_loop_eq_none_iff c s t_v os_v).mp h4, h⟩

/-! ## Auxiliary facts: the stored records stay valid -/

theorem sitesValid_apply (c : unitcell) (k : Call) (h : SitesValid c) :
    SitesValid (k.apply c).2 := by
  cases k with
  | add_site pos tp =>
    simp only [Call.apply]
    rcases add_site_cases_full c pos tp with ⟨e, he⟩ | ⟨hlen, hrange, he⟩
    · rw [he]; exact h
    · rw [he]
      intro st hst
      simp only [List.mem_append, List.mem_singleton] at hst
      rcases hst with hst | rfl
      · exact h st hst
      · exact ⟨hlen, hrange⟩
  | add_bond s t os tp =>
    simp only [Call.apply]
    rcases add_bond_cases c s t os tp with ⟨e, he⟩ | ⟨_, he⟩
    · rw [he]; exact h
    · rw [he]; exact h
  | add_multi s t_v os_v tp =>
    simp only [Call.apply]
    rcases add_multi_cases c s t_v os_v tp with ⟨e, he⟩ | ⟨_, he⟩
    · rw [he]; exact h
    · rw [he]; exact h

theorem bondsValid_apply (c : unitcell) (k : Call) (h : BondsValid c) :
    BondsValid (k.apply c).2 := by
  cases k with
  | add_site pos tp =>
    simp only [Call.apply]
    rcases add_site_cases c pos tp with ⟨e, he⟩ | he
    · rw [he]; exact h
    · rw [he]
      intro b hb
      obtain ⟨h1, h2, h3⟩ := h b hb
      simp only [num_sites, List.length_append, List.length_singleton] at h1 h2 ⊢
      exact ⟨by omega, by omega, h3⟩
  | add_bond s t os tp =>
    simp only [Call.apply]
    rcases add_bond_cases_full c s t os tp with ⟨e, he⟩ | ⟨_, hs, ht, hos, he⟩
    · rw [he]; exact h
    · rw [he]
      intro b hb
      simp only [List.mem_append, List.mem_singleton] at hb
      rcases hb with hb | rfl
      · exact h b hb
      · exact ⟨hs, ht, hos⟩
  | add_multi s t_v os_v tp =>
    simp only [Call.apply]
    rcases add_multi_cases c s t_v os_v tp with ⟨e, he⟩ | ⟨_, he⟩
    · rw [he]; exact h
    · rw [he]; exact h

theorem multisValid_apply (c : unitcell) (k : Call) (h : MultisValid c) :
    MultisValid (k.apply c).2 := by
  cases k with
  | add_site pos tp =>
    simp only [Call.apply]
    rcases add_site_cases c pos tp with ⟨e, he⟩ | he
    · rw [he]; exact h
    · rw [he]
      intro m hm
      obtain ⟨h1, h2, h3⟩ := h m hm
      refine ⟨h1, ?_, h3⟩
      intro t ht
      have := h2 t ht
      simp only [num_sites, List.length_append, List.length_singleton] at this ⊢
      omega
  | add_bond s t os tp =>
    simp only [Call.apply]
    rcases add_bond_cases c s t os tp with ⟨e, he⟩ | ⟨_, he⟩
    · rw [he]; exact h
    · rw [he]; exact h
  | add_multi s t_v os_v tp =>
    simp only [Call.apply]
    rcases add_multi_cases_full c s t_v os_v tp with ⟨e, he⟩ | ⟨_, hlen, _, hpos, he⟩
    · rw [he]; exact h
    · rw [he]
      intro m hm
      simp only [List.mem_append, List.mem_singleton] at hm
      rcases hm with hm | rfl
      · exact h m hm
      · refine ⟨hlen.symm, ?_, ?_⟩
        · intro t ht
          obtain ⟨i, hi, rfl⟩ := List.mem_iff_getElem.mp ht
          have := (hpos i hi).2.1
          rwa [List.getD_eq_getElem _ _ hi] at this
        · intro os hos
          obtain ⟨i, hi, rfl⟩ := List.mem_iff_getElem.mp hos
          have := (hpos i (hlen ▸ hi)).2.2
          rwa [List.getD_eq_getElem _ _ hi] at this

theorem valid_exec (calls : List Call) :
    ∀ c : unitcell, SitesValid c ∧ BondsValid c ∧ MultisValid c →
      SitesValid (exec c calls) ∧ BondsValid (exec c calls) ∧ MultisValid (exec c calls) := by
  induction calls with
  | nil => intro c h; exact h
  | cons k ks ih =>
    intro c h
    exact ih _ ⟨sitesValid_apply c k h.1, bondsValid_apply c k h.2.1,
      multisValid_apply c k h.2.2⟩

theorem valid_ctor (d : Nat) :
    SitesValid (ctor d) ∧ BondsValid (ctor d) ∧ MultisValid (ctor d) := by
  refine ⟨?_, ?_, ?_⟩
  · intro st hst; simp [ctor] at hst
  · intro b hb; simp [ctor] at hb
  · intro m hm; simp [ctor] at hm

/-! ## Auxiliary facts: the counter array of `max_neighbors` -/

theorem incr_at_of_lt (v : List Nat) (i : Nat) (h : i < v.length) :
    incr_at v i = .returns (v.set i (v.getD i 0 + 1)) := by
  unfold incr_at
  rw [if_pos h]

theorem incr_at_of_not_lt (v : List Nat) (i : Nat) (h : ¬ i < v.length) :
    incr_at v i = .out_of_bounds := by
  unfold incr_at
  rw [if_neg h]

theorem getD_set_incr (v : List Nat) (i j : Nat) (h : i < v.length) :
    (v.set i (v.getD i 0 + 1)).getD j 0 = v.getD j 0 + if j = i then 1 else 0 := by
  by_cases hji : j = i
  · subst hji
    simp [List.getD_eq_getElem?_getD, List.getElem?_set, h]
  · have hij : ¬ i = j := fun e => hji e.symm
    simp [List.getD_eq_getElem?_getD, List.getElem?_set, hij, hji]

theorem max_neighbors_loop_spec (bs : List bond_t) :
    ∀ v : List Nat, (∀ b ∈ bs, b.source < v.length ∧ b.target < v.length) →
      ∃ w, max_neighbors_loop bs v = .returns w ∧ w.length = v.length ∧
        ∀ j, w.getD j 0 = v.getD j 0 + (bs.countP fun b => b.source = j) +
          (bs.countP fun b => b.target = j) := by
  induction bs with
  | nil =>
    intro v _
    exact ⟨v, rfl, rfl, fun j => by simp⟩
  | cons b bs ih =>
    intro v hv
    obtain ⟨hs, ht⟩ := hv b (List.mem_cons_self _ _)
    have ht1 : b.target < (v.set b.source (v.getD b.source 0 + 1)).length := by
      rw [List.length_set]; exact ht
    have hrest : ∀ b1 ∈ bs,
        b1.source < ((v.set b.source (v.getD b.source 0 + 1)).set b.target
          ((v.set b.source (v.getD b.source 0 + 1)).getD b.target 0 + 1)).length ∧
        b1.target < ((v.set b.source (v.getD b.source 0 + 1)).set b.target
          ((v.set b.source (v.getD b.source 0 + 1)).getD b.target 0 + 1)).length := by
      intro b1 hb1
      rw [List.length_set, List.length_set]
      exact hv b1 (List.mem_cons_of_mem _ hb1)
    obtain ⟨w, hw, hlen, hget⟩ := ih _ hrest
    refine ⟨w, ?_, ?_, ?_⟩
    · simp only [max_neighbors_loop, incr_at_of_lt v b.source hs, incr_at_of_lt _ b.target ht1]
      exact hw
    · rw [hlen, List.length_set, List.length_set]
    · intro j
      rw [hget j, getD_set_incr _ b.target j ht1, getD_set_incr v b.source j hs,
        List.countP_cons, List.countP_cons]
      have e1 : (if j = b.source then 1 else 0) =
          (if (decide (b.source = j)) = true then 1 else 0) := by
        by_cases h : j = b.source
        · simp [h]
        · have : ¬ b.source = j := fun e => h e.symm
          simp [h, this]
      have e2 : (if j = b.target then 1 else 0) =
          (if (decide (b.target = j)) = true then 1 else 0) := by
        by_cases h : j = b.target
        · simp [h]
        · have : ¬ b.target = j := fun e => h e.symm
          simp [h, this]
      rw [e1, e2]
      omega

theorem foldl_max_spec (xs : List Nat) :
    ∀ x : Nat, (xs.foldl max x = x ∨ xs.foldl max x ∈ xs) ∧ x ≤ xs.foldl max x ∧
      ∀ y ∈ xs, y ≤ xs.foldl max x := by
  induction xs with
  | nil => intro x; simp
  | cons a as ih =>
    intro x
    obtain ⟨h1, h2, h3⟩ := ih (max x a)
    simp only [List.foldl_cons]
    refine ⟨?_, ?_, ?_⟩
    · rcases h1 with h1 | h1
      · rw [h1]
        rcases Nat.le_total x a with hxa | hax
        · right; rw [Nat.max_eq_right hxa]; exact List.mem_cons_self _ _
        · left; exact Nat.max_eq_left hax
      · right; exact List.mem_cons_of_mem _ h1
    · exact Nat.le_trans (Nat.le_max_left x a) h2
    · intro y hy
      rcases List.mem_cons.mp hy with rfl | hy
      · exact Nat.le_trans (Nat.le_max_right x y) h2
      · exact h3 y hy

theorem max_element_deref_spec (v : List Nat) (hv : v ≠ []) :
    ∃ n, max_element_deref v = .returns n ∧ n ∈ v ∧ ∀ x ∈ v, x ≤ n := by
  cases v with
  | nil => exact absurd rfl hv
  | cons x xs =>
    obtain ⟨h1, h2, h3⟩ := foldl_max_spec xs x
    refine ⟨xs.foldl max x, rfl, ?_, ?_⟩
    · rcases h1 with h1 | h1
      · rw [h1]; exact List.mem_cons_self _ _
      · exact List.mem_cons_of_mem _ h1
    · intro y hy
      rcases List.mem_cons.mp hy with rfl | hy
      · exact h2
      · exact h3 y hy

theorem max_neighbors_spec (c : unitcell)
    (hvalid : ∀ b ∈ c.bonds_, b.source < c.num_sites ∧ b.target < c.num_sites)
    (hpos : 0 < c.num_sites) :
    ∃ n, c.max_neighbors = .returns n ∧ (∀ i < c.num_sites, degree c i ≤ n) ∧
      ∃ i < c.num_sites, degree c i = n := by
  have hv : ∀ b ∈ c.bonds_, b.source < (List.replicate c.num_sites 0).length ∧
      b.target < (List.replicate c.num_sites 0).length := by
    intro b hb
    rw [List.length_replicate]
    exact hvalid b hb
  obtain ⟨w, hw, hlen, hget⟩ := max_neighbors_loop_spec c.bonds_ _ hv
  rw [List.length_replicate] at hlen
  have hdeg : ∀ j, w.getD j 0 = degree c j := by
    intro j
    have hz : (List.replicate c.num_sites 0).getD j 0 = 0 := by
      rw [List.getD_eq_getElem?_getD, List.getElem?_replicate]
      split_ifs <;> rfl
    rw [hget j, hz]
    simp [degree]
  have hne : w ≠ [] := by
    intro h
    rw [h] at hlen
    simp at hlen
    omega
  obtain ⟨n, hn, hmem, hmax⟩ := max_element_deref_spec w hne
  refine ⟨n, ?_, ?_, ?_⟩
  · unfold max_neighbors
    rw [hw]
    exact hn
  · intro i hi
    have hi2 : i < w.length := hlen ▸ hi
    have := hmax w[i] (List.getElem_mem hi2)
    rw [← hdeg i, List.getD_eq_getElem _ _ hi2]
    exact this
  · obtain ⟨i, hi, hwi⟩ := List.mem_iff_getElem.mp hmem
    refine ⟨i, hlen ▸ hi, ?_⟩
    rw [← hdeg i, List.getD_eq_getElem _ _ hi]
    exact hwi

theorem max_neighbors_no_sites (c : unitcell) (h : c.num_sites = 0) :
    c.max_neighbors = .out_of_bounds := by
  unfold max_neighbors
  rw [h]
  cases hb : c.bonds_ with
  | nil => rfl
  | cons b bs =>
    have h0 : incr_at (List.replicate 0 0) b.source = .out_of_bounds :=
      incr_at_of_not_lt _ _ (by simp)
    simp only [max_neighbors_loop, h0]

theorem degree_le (c : unitcell) (i : Nat) : degree c i ≤ 2 * c.num_bonds := by
  unfold degree num_bonds
  have h1 := List.countP_le_length (fun b : bond_t => decide (b.source = i)) (l := c.bonds_)
  have h2 := List.countP_le_length (fun b : bond_t => decide (b.target = i)) (l := c.bonds_)
  omega

theorem degree_append (c c1 : unitcell) (b : bond_t) (h : c1.bonds_ = c.bonds_ ++ [b])
    (i : Nat) :
    degree c1 i =
      degree c i + (if b.source = i then 1 else 0) + (if b.target = i then 1 else 0) := by
  unfold degree
  rw [h, List.countP_append, List.countP_append, List.countP_singleton, List.countP_singleton]
  simp only [decide_eq_true_eq]
  omega

theorem degree_one_site (c : unitcell) (h1 : c.num_sites = 1)
    (hvalid : ∀ b ∈ c.bonds_, b.source < c.num_sites ∧ b.target < c.num_sites) :
    degree c 0 = 2 * c.num_bonds := by
  unfold degree num_bonds
  have hs : (c.bonds_.countP fun b => decide (b.source = 0)) = c.bonds_.length := by
    rw [List.countP_eq_length]
    intro b hb
    have := (hvalid b hb).1
    simp only [decide_eq_true_eq]
    omega
  have ht : (c.bonds_.countP fun b => decide (b.target = 0)) = c.bonds_.length := by
    rw [List.countP_eq_length]
    intro b hb
    have := (hvalid b hb).2
    simp only [decide_eq_true_eq]
    omega
  rw [hs, ht]
  omega

theorem max_neighbors_one_site (c : unitcell) (h1 : c.num_sites = 1)
    (hvalid : ∀ b ∈ c.bonds_, b.source < c.num_sites ∧ b.target < c.num_sites) :
    c.max_neighbors = .returns (2 * c.num_bonds) := by
  obtain ⟨n, hn, _, i, hi, hdeg⟩ := max_neighbors_spec c hvalid (by omega)
  have hi0 : i = 0 := by omega
  rw [hn, ← hdeg, hi0, degree_one_site c h1 hvalid]

theorem bondsValid_index (c : unitcell) (h : BondsValid c) :
    ∀ b ∈ c.bonds_, b.source < c.num_sites ∧ b.target < c.num_sites :=
  fun b hb => ⟨(h b hb).1, (h b hb).2.1⟩

/-! ## Auxiliary facts: the factory `simple` -/

theorem simple_loop_spec (dim : Nat) (ms : List Nat) :
    ∀ cell : unitcell, 0 < cell.num_sites → cell.dimension = dim → cell.m_types_ = ∅ →
      ∃ c, simple_loop dim ms cell = .ok c ∧ c.dim_ = cell.dim_ ∧ c.sites_ = cell.sites_ ∧
        c.multis_ = cell.multis_ ∧
        c.bonds_ = cell.bonds_ ++
          ms.map fun m => bond_t.mk 0 0 ((offset_t.Zero dim).set m 1) 0 := by
  induction ms with
  | nil =>
    intro cell _ _ _
    exact ⟨cell, rfl, rfl, rfl, rfl, by simp⟩
  | cons m ms ih =>
    intro cell hpos hdim hmt
    have hlen : ((offset_t.Zero dim).set m 1).length = cell.dimension := by
      rw [List.length_set, hdim]
      simp [offset_t.Zero]
    have hnot : (0 : Int) ∉ cell.m_types_ := by rw [hmt]; simp
    have hok := add_bond_eq_ok cell 0 0 ((offset_t.Zero dim).set m 1) 0 hnot hpos hpos hlen
    obtain ⟨c, hc, h1, h2, h3, h4⟩ := ih (cell.add_bond 0 0 ((offset_t.Zero dim).set m 1) 0).2
      (by rw [hok]; exact hpos) (by rw [hok]; exact hdim) (by rw [hok]; exact hmt)
    refine ⟨c, ?_, ?_, ?_, ?_, ?_⟩
    · simp only [simple_loop]
      rw [hok] at hc ⊢
      exact hc
    · rw [h1, hok]
    · rw [h2, hok]
    · rw [h3, hok]
    · rw [h4, hok]
      simp

theorem simple_spec (d : Nat) :
    ∃ c, simple d = .ok c ∧ c.dim_ = d ∧ c.sites_ = [site_t.mk (coordinate_t.Zero d) 0] ∧
      c.multis_ = [] ∧
      c.bonds_ = (List.range d).map fun m => bond_t.mk 0 0 ((offset_t.Zero d).set m 1) 0 := by
  have hlen : (coordinate_t.Zero d).length = (ctor d).dimension := by
    simp [coordinate_t.Zero, ctor, dimension]
  have hrange : ∀ x ∈ coordinate_t.Zero d, 0 ≤ x ∧ x < 1 := by
    intro x hx
    have hx0 : x = 0 := List.eq_of_mem_replicate hx
    rw [hx0]
    decide
  have hok := add_site_eq_ok (ctor d) (coordinate_t.Zero d) 0 hlen hrange
  obtain ⟨c, hc, h1, h2, h3, h4⟩ := simple_loop_spec d (List.range d)
    ((ctor d).add_site (coordinate_t.Zero d) 0).2
    (by rw [hok]; simp [num_sites, ctor]) (by rw [hok]; rfl) (by rw [hok]; rfl)
  refine ⟨c, ?_, ?_, ?_, ?_, ?_⟩
  · simp only [simple]
    rw [hok] at hc ⊢
    exact hc
  · rw [h1, hok]; rfl
  · rw [h2, hok]; rfl
  · rw [h3, hok]; rfl
  · rw [h4, hok]; rfl

/-! ## Multi-bonds without targets -/

/-- C11: every stored multi-bond should have at least 2 targets, yet `add_multi`
only rejects a target list of length exactly 1: on a 2-dimensional cell with one
site, `add_multi(0, {}, {}, 0)` succeeds, returns 0 and stores a multi-bond with
no targets, whose `num_act()` is 1. -/
theorem add_multi_accepts_no_targets :
    (((ctor 2).add_site [0, 0] 0).2.add_multi 0 [] [] 0).1 = .ok 0 ∧
    (exec (ctor 2) [Call.add_site [0, 0] 0, Call.add_multi 0 [] [] 0]).multis_ =
      [multi_t.mk 0 [] [] 0] ∧
    (multi_t.mk 0 [] [] 0).target_v.length = 0 ∧
    (multi_t.mk 0 [] [] 0).num_act = 1 :=
  ⟨rfl, rfl, rfl, rfl⟩

/-- C18: the source of every stored multi-bond should be a valid site index, yet
`add_multi` checks the source only inside its loop over the targets: on a fresh
2-dimensional cell, which has no sites, `add_multi(99, {}, {}, 0)` succeeds and
stores a multi-bond whose source 99 is not less than `num_sites()`, which is 0. -/
theorem add_multi_accepts_invalid_source :
    ((ctor 2).add_multi 99 [] [] 0).1 = .ok 0 ∧
    (exec (ctor 2) [Call.add_multi 99 [] [] 0]).multis_ = [multi_t.mk 99 [] [] 0] ∧
    (exec (ctor 2) [Call.add_multi 99 [] [] 0]).num_sites = 0 ∧
    ¬ (multi_t.mk 99 [] [] 0).source < (exec (ctor 2) [Call.add_multi 99 [] [] 0]).num_sites :=
  ⟨rfl, rfl, rfl, by decide⟩

/-! ## Validity of the stored records -/

theorem double_passes_iff (x : double) :
    ¬ (x < 0 ∨ x ≥ 1) ↔ ((0 ≤ x ∧ x < 1) ∨ x = double.nan) := by
  cases x with
  | val q =>
    rw [double_zero_eq, double_one_eq, ge_iff_le, double_val_lt_val, double_val_le_val,
      double_val_le_val, double_val_lt_val]
    constructor
    · intro h
      push_neg at h
      exact Or.inl h
    · rintro (h | h)
      · push_neg
        exact h
      · cases h
  | nan => decide
  | inf => decide
  | neg_inf => decide

/-- What the checks of `add_site` and `add_bond` do secure on every cell reached
from a freshly constructed one: every stored coordinate has length
`dimension()` and each of its components lies in `[0, 1)` or is NaN, every
stored bond has valid endpoints and an offset of length `dimension()`, and the
loop of `max_neighbors()` stays inside the counter array. -/
theorem reached_cell_records (d : Nat) (calls : List Call) :
    (∀ st ∈ (exec (ctor d) calls).sites_,
      st.coordinate.length = (exec (ctor d) calls).dimension ∧
      ∀ x ∈ st.coordinate, (0 ≤ x ∧ x < 1) ∨ x = double.nan) ∧
    (∀ b ∈ (exec (ctor d) calls).bonds_,
      b.source < (exec (ctor d) calls).num_sites ∧
      b.target < (exec (ctor d) calls).num_sites ∧
      b.target_offset.length = (exec (ctor d) calls).dimension) ∧
    (∃ w, max_neighbors_loop (exec (ctor d) calls).bonds_
        (List.replicate (exec (ctor d) calls).num_sites 0) = .returns w ∧
      w.length = (exec (ctor d) calls).num_sites) := by
  obtain ⟨hs, hb, _⟩ := valid_exec calls (ctor d) (valid_ctor d)
  refine ⟨?_, hb, ?_⟩
  · intro st hst
    exact ⟨(hs st hst).1, fun x hx => (double_passes_iff x).mp ((hs st hst).2 x hx)⟩
  · have hv : ∀ b ∈ (exec (ctor d) calls).bonds_,
        b.source < (List.replicate (exec (ctor d) calls).num_sites 0).length ∧
        b.target < (List.replicate (exec (ctor d) calls).num_sites 0).length := by
      intro b hb1
      rw [List.length_replicate]
      exact ⟨(hb b hb1).1, (hb b hb1).2.1⟩
    obtain ⟨w, hw, hlen, _⟩ := max_neighbors_loop_spec _ _ hv
    exact ⟨w, hw, by rw [hlen, List.length_replicate]⟩

/-- C15: every stored site should have all its components in `[0, 1)`, yet the
range test of `add_site`, `pos[i] < 0 || pos[i] >= 1.0`, compares `double`s and
both comparisons are false on NaN: on a fresh 1-dimensional cell `add_site` with
the coordinate `(NaN)` succeeds, returns 0 and stores the site, whose component
is not in `[0, 1)`. -/
theorem add_site_accepts_nan :
    ((ctor 1).add_site [double.nan] 0).1 = .ok 0 ∧
    (exec (ctor 1) [Call.add_site [double.nan] 0]).sites_ = [site_t.mk [double.nan] 0] ∧
    ¬ (double.nan < 0 ∨ double.nan ≥ 1) ∧
    ¬ (0 ≤ double.nan ∧ double.nan < 1) :=
  ⟨rfl, rfl, by decide, by decide⟩

/-- C16: in every cell reached from a freshly constructed cell by `add_site`,
`add_bond` and `add_multi` calls, every stored multi-bond has exactly as many
offsets as targets, every one of its targets is less than `num_sites()`, and
every one of its offsets has length `dimension()`. -/
theorem reachable_multis_valid (d : Nat) (calls : List Call) :
    ∀ m ∈ (exec (ctor d) calls).multis_,
      m.target_offset_v.length = m.target_v.length ∧
      (∀ t ∈ m.target_v, t < (exec (ctor d) calls).num_sites) ∧
      (∀ os ∈ m.target_offset_v, os.length = (exec (ctor d) calls).dimension) :=
  (valid_exec calls (ctor d) (valid_ctor d)).2.2

theorem reachable_multis_valid_witness :
    multi_t.mk 0 [0, 0] [[1], [2]] 9 ∈
      (exec (ctor 1) [Call.add_site [0] 0, Call.add_multi 0 [0, 0] [[1], [2]] 9]).multis_ ∧
    (multi_t.mk 0 [0, 0] [[1], [2]] 9).target_offset_v.length =
      (multi_t.mk 0 [0, 0] [[1], [2]] 9).target_v.length ∧
    (∀ t ∈ (multi_t.mk 0 [0, 0] [[1], [2]] 9).target_v,
      t < (exec (ctor 1) [Call.add_site [0] 0, Call.add_multi 0 [0, 0] [[1], [2]] 9]).num_sites) ∧
    (∀ os ∈ (multi_t.mk 0 [0, 0] [[1], [2]] 9).target_offset_v,
      os.length =
        (exec (ctor 1) [Call.add_site [0] 0, Call.add_multi 0 [0, 0] [[1], [2]] 9]).dimension) :=
  have hmem : multi_t.mk 0 [0, 0] [[1], [2]] 9 ∈
      (exec (ctor 1) [Call.add_site [0] 0, Call.add_multi 0 [0, 0] [[1], [2]] 9]).multis_ :=
    List.mem_singleton.mpr rfl
  ⟨hmem, reachable_multis_valid 1 [Call.add_site [0] 0, Call.add_multi 0 [0, 0] [[1], [2]] 9]
    (multi_t.mk 0 [0, 0] [[1], [2]] 9) hmem⟩

/-- C19: in every cell reached from a freshly constructed cell by `add_site`,
`add_bond` and `add_multi` calls, the tracked bond-type set is exactly the set of
type tags of the stored bonds and the tracked multi-type set is exactly the set
of type tags of the stored multi-bonds. -/
theorem tracked_types_are_stored_types (d : Nat) (calls : List Call) :
    (exec (ctor d) calls).b_types_ = bond_tags (exec (ctor d) calls) ∧
    (exec (ctor d) calls).m_types_ = multi_tags (exec (ctor d) calls) ∧
    (∀ t : Int, t ∈ (exec (ctor d) calls).b_types_ ↔
      ∃ b ∈ (exec (ctor d) calls).bonds_, b.type = t) ∧
    (∀ t : Int, t ∈ (exec (ctor d) calls).m_types_ ↔
      ∃ m ∈ (exec (ctor d) calls).multis_, m.type = t) := by
  obtain ⟨hb, hm, _⟩ := tagInv_exec calls (ctor d) (tagInv_ctor d)
  refine ⟨hb, hm, ?_, ?_⟩
  · intro t
    rw [hb]
    simp [bond_tags]
  · intro t
    rw [hm]
    simp [multi_tags]

/-! ## The query `max_neighbors` -/

/-- C12: on every cell reached by `add_*` calls that has at least one site,
`max_neighbors()` returns the maximum over the site indices `i` of the number of
stored bonds with source `i` plus the number of stored bonds with target `i`;
a further self-bond adds 2 to its site; the result depends on the sites and
bonds only, not on the stored multi-bonds; and the 2-dimensional cell with one
site and the bonds `(0,0,[1,0],0)` and `(0,0,[0,1],0)` gives 4. -/
theorem max_neighbors_is_max_degree (d : Nat) (calls : List Call)
    (hpos : 0 < (exec (ctor d) calls).num_sites) :
    (∃ n, (exec (ctor d) calls).max_neighbors = .returns n ∧
      (∀ i < (exec (ctor d) calls).num_sites, degree (exec (ctor d) calls) i ≤ n) ∧
      ∃ i < (exec (ctor d) calls).num_sites, degree (exec (ctor d) calls) i = n) ∧
    (∀ (c1 : unitcell) (b : bond_t),
      c1.bonds_ = (exec (ctor d) calls).bonds_ ++ [b] → b.source = b.target →
      degree c1 b.source = degree (exec (ctor d) calls) b.source + 2) ∧
    (∀ c1 : unitcell, c1.sites_ = (exec (ctor d) calls).sites_ →
      c1.bonds_ = (exec (ctor d) calls).bonds_ →
      c1.max_neighbors = (exec (ctor d) calls).max_neighbors) ∧
    (exec (ctor 2) [Call.add_site [0, 0] 0, Call.add_bond 0 0 [1, 0] 0,
      Call.add_bond 0 0 [0, 1] 0]).max_neighbors = .returns 4 := by
  obtain ⟨_, hb, _⟩ := valid_exec calls (ctor d) (valid_ctor d)
  refine ⟨max_neighbors_spec _ (bondsValid_index _ hb) hpos, ?_, ?_, rfl⟩
  · intro c1 b hbonds hself
    rw [degree_append _ c1 b hbonds, if_pos rfl, if_pos hself.symm]
  · intro c1 hsites hbonds
    unfold max_neighbors num_sites
    rw [hsites, hbonds]

theorem max_neighbors_is_max_degree_witness :
    0 < (exec (ctor 1) [Call.add_site [0] 0, Call.add_site [0] 1,
      Call.add_bond 0 1 [1] 0, Call.add_bond 1 1 [1] 0]).num_sites ∧
    ∃ n, (exec (ctor 1) [Call.add_site [0] 0, Call.add_site [0] 1,
        Call.add_bond 0 1 [1] 0, Call.add_bond 1 1 [1] 0]).max_neighbors = .returns n ∧
      (∀ i < (exec (ctor 1) [Call.add_site [0] 0, Call.add_site [0] 1,
          Call.add_bond 0 1 [1] 0, Call.add_bond 1 1 [1] 0]).num_sites,
        degree (exec (ctor 1) [Call.add_site [0] 0, Call.add_site [0] 1,
          Call.add_bond 0 1 [1] 0, Call.add_bond 1 1 [1] 0]) i ≤ n) ∧
      ∃ i < (exec (ctor 1) [Call.add_site [0] 0, Call.add_site [0] 1,
          Call.add_bond 0 1 [1] 0, Call.add_bond 1 1 [1] 0]).num_sites,
        degree (exec (ctor 1) [Call.add_site [0] 0, Call.add_site [0] 1,
          Call.add_bond 0 1 [1] 0, Call.add_bond 1 1 [1] 0]) i = n :=
  have hpos : 0 < (exec (ctor 1) [Call.add_site [0] 0, Call.add_site [0] 1,
      Call.add_bond 0 1 [1] 0, Call.add_bond 1 1 [1] 0]).num_sites := by decide
  ⟨hpos, (max_neighbors_is_max_degree 1 _ hpos).1⟩

/-- C17: on a cell with zero sites `max_neighbors()` should fail cleanly without
reading outside the counter array, yet on a freshly constructed cell of any
dimension the counter array is empty, `std::max_element` returns its end
iterator and the code dereferences it: the run ends in an access outside the
array, with no exception and no value. -/
theorem max_neighbors_fresh_cell_out_of_bounds :
    (ctor 2).max_neighbors = .out_of_bounds ∧
    (ctor 2).num_sites = 0 ∧
    max_neighbors_loop (ctor 2).bonds_ (List.replicate (ctor 2).num_sites 0) = .returns [] ∧
    max_element_deref [] = .out_of_bounds ∧
    ∀ d : Nat, (ctor d).max_neighbors = .out_of_bounds :=
  ⟨rfl, rfl, rfl, rfl, fun d => max_neighbors_no_sites (ctor d) rfl⟩

/-- C20: on every cell reached by `add_*` calls that has at least one site,
`max_neighbors()` is at most `2 * num_bonds()`, with equality when the cell has
exactly one site; and a successful `add_bond` on a reached cell never decreases
`max_neighbors()` and increases it by at most 2. -/
theorem max_neighbors_bounds (d : Nat) (calls : List Call) :
    (0 < (exec (ctor d) calls).num_sites →
      ∃ n, (exec (ctor d) calls).max_neighbors = .returns n ∧
        n ≤ 2 * (exec (ctor d) calls).num_bonds ∧
        ((exec (ctor d) calls).num_sites = 1 → n = 2 * (exec (ctor d) calls).num_bonds)) ∧
    (∀ (s t : Nat) (os : offset_t) (tp : Int) (b : Nat),
      ((exec (ctor d) calls).add_bond s t os tp).1 = .ok b →
      ∃ n n1, (exec (ctor d) calls).max_neighbors = .returns n ∧
        ((exec (ctor d) calls).add_bond s t os tp).2.max_neighbors = .returns n1 ∧
        n ≤ n1 ∧ n1 ≤ n + 2) := by
  obtain ⟨_, hb, _⟩ := valid_exec calls (ctor d) (valid_ctor d)
  have hidx := bondsValid_index _ hb
  constructor
  · intro hpos
    obtain ⟨n, hn, _, i, _, hdeg⟩ := max_neighbors_spec _ hidx hpos
    refine ⟨n, hn, ?_, ?_⟩
    · rw [← hdeg]; exact degree_le _ i
    · intro h1
      have := max_neighbors_one_site _ h1 hidx
      rw [hn] at this
      exact Outcome.returns.inj this
  · intro s t os tp b hok
    have hb1 : BondsValid ((Call.add_bond s t os tp).apply (exec (ctor d) calls)).2 :=
      bondsValid_apply _ _ hb
    simp only [Call.apply] at hb1
    obtain ⟨htp, hs, ht, hos⟩ := add_bond_ok_inv _ s t os tp b hok
    have heq := add_bond_eq_ok _ s t os tp htp hs ht hos
    have hbonds : ((exec (ctor d) calls).add_bond s t os tp).2.bonds_ =
        (exec (ctor d) calls).bonds_ ++ [bond_t.mk s t os tp] := by rw [heq]
    have hsites : ((exec (ctor d) calls).add_bond s t os tp).2.num_sites =
        (exec (ctor d) calls).num_sites := by rw [heq]; rfl
    have hpos : 0 < (exec (ctor d) calls).num_sites := by omega
    obtain ⟨n, hn, hle, i, hi, hdeg⟩ := max_neighbors_spec _ hidx hpos
    obtain ⟨n1, hn1, hle1, i1, hi1, hdeg1⟩ :=
      max_neighbors_spec _ (bondsValid_index _ hb1) (by rw [hsites]; exact hpos)
    refine ⟨n, n1, hn, hn1, ?_, ?_⟩
    · have h1 := hle1 i (by rw [hsites]; exact hi)
      rw [degree_append _ _ _ hbonds i] at h1
      omega
    · have h1 := hle i1 (by rw [← hsites]; exact hi1)
      rw [degree_append _ _ _ hbonds i1] at hdeg1
      have e1 : (if (bond_t.mk s t os tp).source = i1 then 1 else 0) ≤ 1 := by
        split_ifs <;> omega
      have e2 : (if (bond_t.mk s t os tp).target = i1 then 1 else 0) ≤ 1 := by
        split_ifs <;> omega
      omega

theorem max_neighbors_bounds_witness :
    (0 < (exec (ctor 1) [Call.add_site [0] 0, Call.add_bond 0 0 [1] 0]).num_sites ∧
      ∃ n, (exec (ctor 1) [Call.add_site [0] 0, Call.add_bond 0 0 [1] 0]).max_neighbors
          = .returns n ∧
        n ≤ 2 * (exec (ctor 1) [Call.add_site [0] 0, Call.add_bond 0 0 [1] 0]).num_bonds) ∧
    (((exec (ctor 1) [Call.add_site [0] 0, Call.add_bond 0 0 [1] 0]).add_bond 0 0 [2] 3).1
        = .ok 1 ∧
      ∃ n n1, (exec (ctor 1) [Call.add_site [0] 0, Call.add_bond 0 0 [1] 0]).max_neighbors
          = .returns n ∧
        ((exec (ctor 1) [Call.add_site [0] 0, Call.add_bond 0 0 [1] 0]).add_bond
          0 0 [2] 3).2.max_neighbors = .returns n1 ∧
        n ≤ n1 ∧ n1 ≤ n + 2) :=
  have hpos : 0 < (exec (ctor 1) [Call.add_site [0] 0, Call.add_bond 0 0 [1] 0]).num_sites := by
    decide
  have h := (max_neighbors_bounds 1 [Call.add_site [0] 0, Call.add_bond 0 0 [1] 0]).1 hpos
  ⟨⟨hpos, h.imp fun _ hn => ⟨hn.1, hn.2.1⟩⟩,
   ⟨rfl, (max_neighbors_bounds 1 [Call.add_site [0] 0, Call.add_bond 0 0 [1] 0]).2
      0 0 [2] 3 1 rfl⟩⟩

/-! ## The factory `simple` -/

/-- C13: for every dimension `d`, `simple(d)` is built without any validation
failure and is a cell of dimension `d` with exactly one site (the all-zero
coordinate of length `d`, type 0), no multi-bonds and exactly `d` bonds, where
for each `m < d` the `m`-th bond has source 0, target 0, type 0 and an offset of
length `d` that is 1 in component `m` and 0 in every other component. -/
theorem simple_builds_hypercubic_cell (d : Nat) :
    ∃ c, simple d = .ok c ∧ c.dimension = d ∧
      c.sites_ = [site_t.mk (List.replicate d 0) 0] ∧
      c.num_sites = 1 ∧ c.multis_ = [] ∧ c.num_bonds = d ∧
      ∀ m < d, ∃ b, c.bonds_[m]? = some b ∧ b.source = 0 ∧ b.target = 0 ∧ b.type = 0 ∧
        b.target_offset.length = d ∧
        ∀ j < d, b.target_offset[j]? = some (if j = m then 1 else 0) := by
  obtain ⟨c, hc, hdim, hsites, hmultis, hbonds⟩ := simple_spec d
  refine ⟨c, hc, hdim, hsites, ?_, hmultis, ?_, ?_⟩
  · rw [num_sites, hsites]; rfl
  · rw [num_bonds, hbonds, List.length_map, List.length_range]
  · intro m hm
    refine ⟨bond_t.mk 0 0 ((offset_t.Zero d).set m 1) 0, ?_, rfl, rfl, rfl, ?_, ?_⟩
    · rw [hbonds, List.getElem?_map, List.getElem?_range hm]
      rfl
    · simp [offset_t.Zero]
    · intro j hj
      by_cases hjm : j = m
      · subst hjm
        simp [offset_t.Zero, List.getElem?_set, hj]
      · have hmj : ¬ m = j := fun e => hjm e.symm
        simp [offset_t.Zero, List.getElem?_set, List.getElem?_replicate, hj, hjm, hmj]

/-- C14: for every dimension `d`, `d = 0` included, `max_neighbors()` evaluated
on `simple(d)` returns `2 * d`. -/
theorem max_neighbors_simple (d : Nat) :
    ∃ c, simple d = .ok c ∧ c.max_neighbors = .returns (2 * d) := by
  obtain ⟨c, hc, _, hsites, _, hbonds⟩ := simple_spec d
  have h1 : c.num_sites = 1 := by rw [num_sites, hsites]; rfl
  have hnb : c.num_bonds = d := by
    rw [num_bonds, hbonds, List.length_map, List.length_range]
  have hvalid : ∀ b ∈ c.bonds_, b.source < c.num_sites ∧ b.target < c.num_sites := by
    intro b hb
    rw [hbonds] at hb
    obtain ⟨m, _, rfl⟩ := List.mem_map.mp hb
    rw [h1]
    exact ⟨Nat.zero_lt_one, Nat.zero_lt_one⟩
  refine ⟨c, hc, ?_⟩
  rw [max_neighbors_one_site c h1 hvalid, hnb]

end lattice
